import Mathlib

/-!
Verification development for the core of the `esp-tag` mesh networking layer.

This file gives a shallow embedding of the routing-tree data structure, the
wire codec and the relevant parts of the mesh engine found under
`src/logic/` (`node.rs`, `wire.rs`, `message.rs`, `arena.rs`, `tree.rs`,
`mesh.rs`), and proves properties about them.

Modelling conventions:
* bytes (`u8`) are `Nat`s; where the Rust type system guarantees `u8`,
  well-formedness predicates add the `< 256` bound where it matters;
* `i32` is `Int` together with explicit two's-complement conversion through
  `% 2^32` for the little-endian byte codec;
* fallible Rust functions return `Except`;
* interior mutability (`RefCell` writes through the arena) becomes explicit
  state passing: tree mutators return the updated tree next to the result;
* the recursive tree helpers take an explicit fuel argument; the entry
  points use `FUEL = MAX_LEAFS = 32`, which dominates the depth of every
  tree representable in the 32-slot arena.
-/

namespace EspTag

/-- A 6-byte MAC-like identifier (`src/logic/node.rs`, `struct Node`).
The Rust `PartialEq` compares the byte arrays element-wise, which for two
6-byte arrays coincides with structural equality used here. -/
structure Node where
  mac : List Nat
deriving DecidableEq

/-- Well-formedness of a `Node` value as represented in Rust: exactly 6
bytes, each a `u8`. -/
def Node.Wf (n : Node) : Prop := n.mac.length = 6 ∧ ∀ b ∈ n.mac, b < 256

instance (n : Node) : Decidable n.Wf := by
  unfold Node.Wf; infer_instance

/-- `src/logic/message.rs`: `pub const BROADCAST_NODE: Node = Node::new([0xFF; 6])`. -/
def BROADCAST_NODE : Node := ⟨[255, 255, 255, 255, 255, 255]⟩

/-- `src/logic/message.rs`: `pub const MESSAGE_SIZE: usize = 256`. -/
def MESSAGE_SIZE : Nat := 256

/-- `src/logic/error.rs`, `enum CursorError`. -/
inductive CursorError
  | bufferUnderflowError
deriving DecidableEq

/-- `src/logic/error.rs`, `enum MessageTypeError`. -/
inductive MessageTypeError
  | invalidMessageType (b : Nat)
deriving DecidableEq

/-- `src/logic/error.rs`, `enum CodecError`. The heapless `CapacityError`
payload is a unit struct, so `bufferCapacityError` carries no data. -/
inductive CodecError
  | messageTypeError (e : MessageTypeError)
  | cursorReadError (e : CursorError)
  | bufferCapacityError
  | bufferOverflowError (b : Nat)
  | invalidOptionFlagError (b : Nat)
  | codecError
deriving DecidableEq

/-- `src/logic/error.rs`, `enum ArenaError`. -/
inductive ArenaError
  | slotEmptyError (id : Nat)
  | invalidIndexError (id : Nat)
deriving DecidableEq

/-- `src/logic/error.rs`, `enum TreeError`. -/
inductive TreeError
  | leafAllocationError
  | nodeNotFoundError
  | leafNotFoundError (e : ArenaError)
  | rootIsDestinationError
  | uninitializedError
deriving DecidableEq

/-- `src/logic/error.rs`, `enum SendMessageError`. -/
inductive SendMessageError
  | messageTypeEncodeError (e : CodecError)
  | finalDestinationEncodeError (e : CodecError)
  | finalSourceEncodeError (e : CodecError)
  | messageTooLargeError
deriving DecidableEq

/-- `src/logic/error.rs`, `enum ReceiveMessageError`. -/
inductive ReceiveMessageError
  | messageTypeDecodeError (e : CodecError)
  | finalDestinationDecodeError (e : CodecError)
  | finalSourceDecodeError (e : CodecError)
  | bufferOverflowError
deriving DecidableEq

/-- `src/logic/error.rs`, `enum MeshError` (payload-free variants collapsed). -/
inductive MeshError
  | serializationError (e : SendMessageError)
  | treeError (e : TreeError)
  | linkError
  | receiveMessageError (e : ReceiveMessageError)
  | organizeQueueSendError
  | organizeQueueRecvError
  | receiveQueueSendError
  | spawnError
deriving DecidableEq

deriving instance DecidableEq for Except

/-- `src/logic/wire.rs`, `struct Cursor`: a read-only byte buffer with a
monotone position. -/
structure Cursor where
  buf : List Nat
  pos : Nat
deriving DecidableEq

/-- `Cursor::new`. -/
def Cursor.new (buf : List Nat) : Cursor := ⟨buf, 0⟩

/-- `Cursor::take(n)`: the next `n` bytes, or `BufferUnderflow` leaving the
position unchanged. -/
def Cursor.take (c : Cursor) (n : Nat) : Except CursorError (List Nat × Cursor) :=
  if c.pos + n > c.buf.length then .error .bufferUnderflowError
  else .ok ((c.buf.drop c.pos).take n, ⟨c.buf, c.pos + n⟩)

/-- `cursor.take(1)?[0]`: the pattern used by the codecs to read one byte. -/
def Cursor.takeByte (c : Cursor) : Except CursorError (Nat × Cursor) :=
  if c.pos + 1 > c.buf.length then .error .bufferUnderflowError
  else .ok (c.buf.getD c.pos 0, ⟨c.buf, c.pos + 1⟩)

/-- `heapless::Vec::<u8, MESSAGE_SIZE>::push`, with the rejected byte
reported through `CodecError::BufferOverflowError` as at every push site of
the codec (`wire.rs`, `message.rs`). -/
def pushByte (out : List Nat) (b : Nat) : Except CodecError (List Nat) :=
  if out.length < MESSAGE_SIZE then .ok (out ++ [b]) else .error (.bufferOverflowError b)

/-- `heapless::Vec::<u8, MESSAGE_SIZE>::extend_from_slice`, with failure
reported through `CodecError::BufferCapacityError` as at every extend site
of the codec. -/
def extendSlice (out ext : List Nat) : Except CodecError (List Nat) :=
  if out.length + ext.length ≤ MESSAGE_SIZE then .ok (out ++ ext) else .error .bufferCapacityError

/-- `src/logic/node.rs`, `impl WireCodec for Node`: six raw MAC bytes. -/
def Node.encode (n : Node) (out : List Nat) : Except CodecError (List Nat) :=
  extendSlice out n.mac

/-- `Node::decode`: take 6 bytes from the cursor. -/
def Node.decode (c : Cursor) : Except CodecError (Node × Cursor) :=
  match c.take 6 with
  | .error e => .error (.cursorReadError e)
  | .ok (bytes, c') => .ok (⟨bytes⟩, c')

/-- `src/logic/wire.rs`, `impl WireCodec for Option<T>` at `T = Node`:
flag byte `0x00` = `None`, `0x01` = `Some` followed by the node. -/
def optionNodeEncode (o : Option Node) (out : List Nat) : Except CodecError (List Nat) :=
  match o with
  | none => pushByte out 0
  | some v => do
      let out' ← pushByte out 1
      v.encode out'

/-- `Option::<Node>::decode`: any flag other than 0 and 1 is
`InvalidOptionFlag`. -/
def optionNodeDecode (c : Cursor) : Except CodecError (Option Node × Cursor) :=
  match c.takeByte with
  | .error e => .error (.cursorReadError e)
  | .ok (flag, c') =>
    if flag = 0 then .ok (none, c')
    else if flag = 1 then
      match Node.decode c' with
      | .error e => .error e
      | .ok (n, c'') => .ok (some n, c'')
    else .error (.invalidOptionFlagError flag)

/-- `src/logic/message.rs`, `enum MessageType`. -/
inductive MessageType
  | application
  | discovery
  | invitation
  | requestNews
  | sendNew
  | finSendNew
  | upsertEdge
  | requestInitTopology
deriving DecidableEq

/-- The `#[repr(u8)]` discriminant of each `MessageType` variant. -/
def MessageType.toTag : MessageType → Nat
  | .application => 1
  | .discovery => 2
  | .invitation => 3
  | .requestNews => 4
  | .sendNew => 5
  | .finSendNew => 6
  | .upsertEdge => 7
  | .requestInitTopology => 8

/-- `impl TryFrom<u8> for MessageType`. -/
def MessageType.tryFrom (v : Nat) : Except MessageTypeError MessageType :=
  if v = 1 then .ok .application
  else if v = 2 then .ok .discovery
  else if v = 3 then .ok .invitation
  else if v = 4 then .ok .requestNews
  else if v = 5 then .ok .sendNew
  else if v = 6 then .ok .finSendNew
  else if v = 7 then .ok .upsertEdge
  else if v = 8 then .ok .requestInitTopology
  else .error (.invalidMessageType v)

/-- `src/logic/message.rs`, `enum MessageContent`. `MessageData` payloads
are byte lists; the `SendNew` rssi is an `i32` modelled as `Int`. -/
inductive MessageContent
  | application (d : List Nat)
  | discovery
  | invitation
  | requestNews
  | sendNew (n : Node) (rssi : Int)
  | finSendNew
  | upsertEdge (n p : Option Node)
  | requestInitTopology (n : Node)
deriving DecidableEq

/-- `impl From<&MessageContent> for MessageType`. -/
def messageTypeOf : MessageContent → MessageType
  | .application _ => .application
  | .discovery => .discovery
  | .invitation => .invitation
  | .requestNews => .requestNews
  | .sendNew _ _ => .sendNew
  | .finSendNew => .finSendNew
  | .upsertEdge _ _ => .upsertEdge
  | .requestInitTopology _ => .requestInitTopology

/-- `i32::to_le_bytes` on the two's-complement pattern of `x`. -/
def i32ToLeBytes (x : Int) : List Nat :=
  let u := (x % 4294967296).toNat
  [u % 256, u / 256 % 256, u / 65536 % 256, u / 16777216 % 256]

/-- `i32::from_le_bytes` on a 4-byte little-endian buffer of `u8`s. -/
def i32FromLeBytes (bs : List Nat) : Int :=
  let u := bs.getD 0 0 + 256 * bs.getD 1 0 + 65536 * bs.getD 2 0 + 16777216 * bs.getD 3 0
  if u < 2147483648 then (u : Int) else (u : Int) - 4294967296

/-- `src/logic/message.rs`, `impl WireCodec for MessageContent`, `encode`:
leading tag byte, then the body; the `Application` length byte is the
`as u8` cast of `d.len()`. -/
def MessageContent.encode (m : MessageContent) (out : List Nat) : Except CodecError (List Nat) := do
  let out ← pushByte out (messageTypeOf m).toTag
  match m with
  | .application d => do
      let out ← pushByte out (d.length % 256)
      extendSlice out d
  | .discovery => .ok out
  | .invitation => .ok out
  | .requestNews => .ok out
  | .sendNew n rssi => do
      let out ← (n.encode out).mapError fun _ => .codecError
      extendSlice out (i32ToLeBytes rssi)
  | .finSendNew => .ok out
  | .upsertEdge n p => do
      let out ← (optionNodeEncode n out).mapError fun _ => .codecError
      (optionNodeEncode p out).mapError fun _ => .codecError
  | .requestInitTopology n => (n.encode out).mapError fun _ => .codecError

/-- `MessageContent::decode`. -/
def MessageContent.decode (c : Cursor) : Except CodecError (MessageContent × Cursor) := do
  let (typeByte, c) ← c.takeByte.mapError fun e => .cursorReadError e
  let msgType ← (MessageType.tryFrom typeByte).mapError fun e => .messageTypeError e
  match msgType with
  | .application => do
      let (lenByte, c) ← c.takeByte.mapError fun e => .cursorReadError e
      let (bytes, c) ← (c.take lenByte).mapError fun e => .cursorReadError e
      let d ← extendSlice [] bytes
      .ok (.application d, c)
  | .discovery => .ok (.discovery, c)
  | .invitation => .ok (.invitation, c)
  | .requestNews => .ok (.requestNews, c)
  | .sendNew => do
      let (n, c) ← (Node.decode c).mapError fun _ => .codecError
      let (rssiBytes, c) ← (c.take 4).mapError fun e => .cursorReadError e
      .ok (.sendNew n (i32FromLeBytes rssiBytes), c)
  | .finSendNew => .ok (.finSendNew, c)
  | .upsertEdge => do
      let (n, c) ← (optionNodeDecode c).mapError fun _ => .codecError
      let (p, c) ← (optionNodeDecode c).mapError fun _ => .codecError
      .ok (.upsertEdge n p, c)
  | .requestInitTopology => do
      let (n, c) ← (Node.decode c).mapError fun _ => .codecError
      .ok (.requestInitTopology n, c)

/-- `src/logic/message.rs`, `struct SendMessage`. -/
structure SendMessage where
  data : MessageContent
  final_destination : Node
  final_source : Option Node
deriving DecidableEq

/-- `SendMessage::serialize`: content, then final destination, then the
optional final source, with stage-specific error wrapping. -/
def SendMessage.serialize (m : SendMessage) : Except SendMessageError (List Nat) := do
  let out ← (m.data.encode []).mapError fun e => .messageTypeEncodeError e
  let out ← (m.final_destination.encode out).mapError fun e => .finalDestinationEncodeError e
  let out ← (optionNodeEncode m.final_source out).mapError fun e => .finalSourceEncodeError e
  .ok out

/-- `src/logic/message.rs`, `struct ReceiveMessage`. -/
structure ReceiveMessage where
  data : MessageContent
  final_destination : Node
  destination : Node
  source : Node
  final_source : Node
  rssi : Int
deriving DecidableEq

/-- `ReceiveMessage::new`: decode content, final destination and the
optional final source; an absent final source is substituted with the link
source. -/
def ReceiveMessage.new (payload : List Nat) (destination source : Node) (rssi : Int) :
    Except ReceiveMessageError ReceiveMessage := do
  let c := Cursor.new payload
  let (data, c) ← (MessageContent.decode c).mapError fun e => .messageTypeDecodeError e
  let (final_destination, c) ← (Node.decode c).mapError fun e => .finalDestinationDecodeError e
  let (fsOpt, _) ← (optionNodeDecode c).mapError fun e => .finalSourceDecodeError e
  let final_source := match fsOpt with
    | some val => val
    | none => source
  .ok ⟨data, final_destination, destination, source, final_source, rssi⟩

/-- `src/logic/tree.rs`: `const MAX_LEAFS: usize = 32`. -/
def MAX_LEAFS : Nat := 32

/-- `src/logic/tree.rs`: `const MAX_CHILD_LEAFS: usize = 8`. -/
def MAX_CHILD_LEAFS : Nat := 8

/-- `SlotId` (`src/logic/arena.rs`): a small integer slot index. -/
abbrev SlotId := Nat

/-- `src/logic/tree.rs`, `enum Leaf`: the `Own` root or a `Foreign` node,
each with a bounded child list. -/
inductive Leaf
  | own (nexts : List SlotId)
  | foreign (nexts : List SlotId) (node : Node)
deriving DecidableEq

/-- `Leaf::get_nexts`. -/
def Leaf.get_nexts : Leaf → List SlotId
  | .own nexts => nexts
  | .foreign nexts _ => nexts

/-- Functional counterpart of `Leaf::get_nexts_mut`: replace the child list,
keeping the variant and node. -/
def Leaf.set_nexts : Leaf → List SlotId → Leaf
  | .own _, nexts => .own nexts
  | .foreign _ node, nexts => .foreign nexts node

/-- `Leaf::get_node`: `None` for the `Own` root. -/
def Leaf.get_node : Leaf → Option Node
  | .own _ => none
  | .foreign _ node => some node

/-- `src/logic/arena.rs`, `Arena<Leaf, MAX_LEAFS>`. The Rust free list is a
`heapless::Vec` popped from its tail; it is modelled here in pop order
(head = next id to pop), so `Arena.new`'s free list is
`(List.range MAX_LEAFS).reverse`. -/
structure Arena where
  free : List SlotId
  slots : List (Option Leaf)
deriving DecidableEq

/-- `Arena::new`: all slots empty, every id free (ids are popped starting
from `MAX_LEAFS - 1`, matching the Rust tail pop of `(0..N).collect()`). -/
def Arena.new : Arena := ⟨(List.range MAX_LEAFS).reverse, List.replicate MAX_LEAFS none⟩

/-- `Arena::alloc`: pop a free id and fill its slot; `none` when full. -/
def Arena.alloc (a : Arena) (val : Leaf) : Option (SlotId × Arena) :=
  match a.free with
  | [] => none
  | id :: rest => some (id, ⟨rest, a.slots.set id (some val)⟩)

/-- `Arena::get`: the live leaf at `id`, or `SlotEmpty`. The tree only ever
passes ids previously returned by `alloc`, so the Rust out-of-range panic is
not modelled separately (an out-of-range id reads as an empty slot). -/
def Arena.get (a : Arena) (id : SlotId) : Except ArenaError Leaf :=
  match a.slots.getD id none with
  | none => .error (.slotEmptyError id)
  | some leaf => .ok leaf

/-- A write through the `RefCell` of a live slot (`get(..).borrow_mut()`
followed by mutation), as a functional update. -/
def Arena.set (a : Arena) (id : SlotId) (val : Leaf) : Arena :=
  ⟨a.free, a.slots.set id (some val)⟩

/-- `src/logic/tree.rs`, `struct Tree`. -/
structure Tree where
  leafs : Arena
  root_id : SlotId
deriving DecidableEq

/-- `Tree::new`: allocate the `Own` root in a fresh arena. -/
def Tree.new : Except TreeError Tree :=
  match Arena.new.alloc (Leaf.own []) with
  | none => .error .leafAllocationError
  | some (root_id, leafs) => .ok ⟨leafs, root_id⟩

/-- Fuel bound for the recursive tree helpers: `MAX_LEAFS` dominates the
depth of any tree stored in the 32-slot arena. -/
def FUEL : Nat := MAX_LEAFS

/-- The `find_map` scan inside `Tree::remove_node_helper`: the index of the
first child whose leaf is `Foreign` with the searched node (children whose
slot is not live are skipped, as `ok()?` does inside the closure). -/
def removeScan (a : Arena) (address : Node) : List SlotId → Nat → Option Nat
  | [], _ => none
  | nid :: rest, idx =>
    match a.get nid with
    | .error _ => removeScan a address rest (idx + 1)
    | .ok (.own _) => removeScan a address rest (idx + 1)
    | .ok (.foreign _ node) =>
      if node = address then some idx else removeScan a address rest (idx + 1)

/-- `Tree::remove_node_helper`: find the leaf holding `address`, detach its
id from its parent's child list (keeping its subtree), and return the id
with the updated arena; `heapless::Vec::remove(pos)` returns the removed id
and shifts the rest down (`List.eraseIdx`). The recursion into the children
is the source's `find_map`. -/
def removeNodeHelper (a : Arena) (address : Node) : Nat → SlotId → Option (SlotId × Arena)
  | 0, _ => none
  | fuel + 1, currentId =>
    match a.get currentId with
    | .error _ => none
    | .ok current =>
      match removeScan a address current.get_nexts 0 with
      | some pos =>
        some (current.get_nexts.getD pos 0,
              a.set currentId (current.set_nexts (current.get_nexts.eraseIdx pos)))
      | none => current.get_nexts.findSome? fun nid => removeNodeHelper a address fuel nid

/-- `Tree::insert_node_helper`: find the leaf whose identity is
`parentAddress` (`none` matches the `Own` root) and append `leafId` to its
children; on a full child list the `push(..).ok()?` aborts that invocation
with `none` without descending further. -/
def insertNodeHelper (a : Arena) (parentAddress : Option Node) (leafId : SlotId) :
    Nat → SlotId → Option Arena
  | 0, _ => none
  | fuel + 1, currentId =>
    match a.get currentId with
    | .error _ => none
    | .ok current =>
      if current.get_node = parentAddress then
        if current.get_nexts.length < MAX_CHILD_LEAFS then
          some (a.set currentId (current.set_nexts (current.get_nexts ++ [leafId])))
        else none
      else current.get_nexts.findSome? fun nid => insertNodeHelper a parentAddress leafId fuel nid

/-- `Tree::next_hop_helper`: an early return when the current leaf itself
holds the destination; otherwise `find` the first child whose recursive
lookup succeeds — its identity is the next hop, or `RootIsDestination` when
that child has no identity (the `Own` leaf). -/
def nextHopHelper (a : Arena) (destination : Node) : Nat → SlotId → Except TreeError Node
  | 0, _ => .error .nodeNotFoundError
  | fuel + 1, currentId =>
    match a.get currentId with
    | .error e => .error (.leafNotFoundError e)
    | .ok current =>
      let descend : Except TreeError Node :=
        match current.get_nexts.find? (fun nid => (nextHopHelper a destination fuel nid).isOk) with
        | some retId =>
          match a.get retId with
          | .error e => .error (.leafNotFoundError e)
          | .ok ret =>
            match ret.get_node with
            | some n => .ok n
            | none => .error .rootIsDestinationError
        | none => .error .nodeNotFoundError
      match current with
      | .foreign _ node => if node = destination then .ok node else descend
      | .own _ => descend

/-- `Tree::height_helper`: 0 for a dead slot, otherwise one more than
`iter().map(height_helper).max().unwrap_or(0)` over the children (the
maximum of a `Nat` list written as a `max`-fold). -/
def heightHelper (a : Arena) : Nat → SlotId → Nat
  | 0, _ => 0
  | fuel + 1, currentId =>
    match a.get currentId with
    | .error _ => 0
    | .ok current => (current.get_nexts.map (heightHelper a fuel)).foldr max 0 + 1

/-- Step 2 of `Tree::upsert_edge`: attach the detached or fresh leaf under
the parent; on failure the tree keeps the step-1 mutation (`NodeNotFound`
leaves the child detached). -/
def Tree.insertStep (t : Tree) (parent : Option Node) (leafId : SlotId) :
    Except TreeError Unit × Tree :=
  match insertNodeHelper t.leafs parent leafId FUEL t.root_id with
  | some a' => (.ok (), ⟨a', t.root_id⟩)
  | none => (.error .nodeNotFoundError, t)

/-- `Tree::upsert_edge(from, to)`: detach `to` if present (else allocate a
fresh `Foreign` leaf), then attach it under the parent named by `from`
(`none` = the `Own` root). The updated tree is returned next to the result
(`&mut self` in Rust), also on error. -/
def Tree.upsert_edge (t : Tree) (fromNode : Option Node) (toNode : Node) :
    Except TreeError Unit × Tree :=
  match removeNodeHelper t.leafs toNode FUEL t.root_id with
  | some (leafId, a') => Tree.insertStep ⟨a', t.root_id⟩ fromNode leafId
  | none =>
    match t.leafs.alloc (Leaf.foreign [] toNode) with
    | none => (.error .leafAllocationError, t)
    | some (leafId, a') => Tree.insertStep ⟨a', t.root_id⟩ fromNode leafId

/-- `Tree::next_hop`. -/
def Tree.next_hop (t : Tree) (destination : Node) : Except TreeError Node :=
  nextHopHelper t.leafs destination FUEL t.root_id

/-- `Tree::height`. -/
def Tree.height (t : Tree) : Nat :=
  heightHelper t.leafs FUEL t.root_id

/-- `Mesh::send_content` (`src/logic/mesh.rs`): build the `SendMessage` with
`final_source = None`, ask the tree for the next hop, then serialize; the
pair handed to `link.send` is returned (the link itself never fails). -/
def Mesh.send_content (t : Tree) (content : MessageContent) (destination : Node) :
    Except MeshError (List Nat × Node) :=
  let msg : SendMessage := ⟨content, destination, none⟩
  match t.next_hop destination with
  | .error e => .error (.treeError e)
  | .ok next =>
    match msg.serialize with
    | .error e => .error (.serializationError e)
    | .ok bytes => .ok (bytes, next)

/-- `Mesh::send`: wrap the payload in `Application` and send it. -/
def Mesh.send (t : Tree) (data : List Nat) (destination : Node) :
    Except MeshError (List Nat × Node) :=
  Mesh.send_content t (.application data) destination

/-- The interpretation of an incoming `UpsertEdge((n, p))` message shared by
`wait_for_invitation` and `follower_task` (`src/logic/mesh.rs`): an absent
parent means the sender, a parent equal to the receiver's own identity
(the message's final destination) means the root, and an absent child means
the sender. Returns the `(from, to)` pair passed to `tree.upsert_edge`. -/
def interpretUpsertEdge (n p : Option Node) (finalSource finalDestination : Node) :
    Option Node × Node :=
  (match p with
   | none => some finalSource
   | some node => if node = finalDestination then none else some node,
   match n with
   | none => finalSource
   | some node => node)

/-! ### Generic `Except` reduction lemmas used throughout the proofs -/

@[simp] theorem exceptBind_ok {ε α β : Type} (a : α) (f : α → Except ε β) :
    (Except.ok a >>= f) = f a := rfl

@[simp] theorem exceptBind_error {ε α β : Type} (e : ε) (f : α → Except ε β) :
    ((Except.error e : Except ε α) >>= f) = Except.error e := rfl

@[simp] theorem exceptMapError_ok {ε ε' α : Type} (f : ε → ε') (a : α) :
    (Except.ok a : Except ε α).mapError f = Except.ok a := rfl

@[simp] theorem exceptMapError_error {ε ε' α : Type} (f : ε → ε') (e : ε) :
    (Except.error e : Except ε α).mapError f = Except.error (f e) := rfl

@[simp] theorem exceptPure_eq {ε α : Type} (a : α) :
    (pure a : Except ε α) = Except.ok a := rfl

@[simp] theorem exceptIsOk_ok {ε α : Type} (a : α) :
    (Except.ok a : Except ε α).isOk = true := rfl

@[simp] theorem exceptIsOk_error {ε α : Type} (e : ε) :
    (Except.error e : Except ε α).isOk = false := rfl

/-! ### The codec round-trip (C1) -/

/-- The `i32` little-endian byte codec is the identity on the `i32` range. -/
theorem i32_le_roundtrip (x : Int) (h1 : -2147483648 ≤ x) (h2 : x < 2147483648) :
    i32FromLeBytes (i32ToLeBytes x) = x := by
  simp only [i32ToLeBytes, i32FromLeBytes, List.getD_cons_zero, List.getD_cons_succ]
  omega

/-- The 4 bytes produced by `i32ToLeBytes`. -/
theorem i32ToLeBytes_length (x : Int) : (i32ToLeBytes x).length = 4 := rfl

/-- Well-formedness of a `MessageContent` value as represented in Rust:
payloads are `MessageData` (at most `MESSAGE_SIZE` `u8`s), nodes are 6-byte
`u8` arrays, and the rssi is an `i32`. -/
def MessageContent.Wf : MessageContent → Prop
  | .application d => d.length ≤ 256 ∧ ∀ b ∈ d, b < 256
  | .sendNew n rssi => n.Wf ∧ -2147483648 ≤ rssi ∧ rssi < 2147483648
  | .upsertEdge n p => (∀ v, n = some v → v.Wf) ∧ (∀ v, p = some v → v.Wf)
  | .requestInitTopology n => n.Wf
  | _ => True

instance : (m : MessageContent) → Decidable m.Wf := fun m => by
  unfold MessageContent.Wf
  cases m <;> infer_instance

theorem node_encode_ok (n : Node) (out : List Nat) (h : out.length + n.mac.length ≤ 256) :
    n.encode out = .ok (out ++ n.mac) := by
  simp [Node.encode, extendSlice, MESSAGE_SIZE, h]

theorem node_decode_eq (buf mac rest : List Nat) (pos : Nat)
    (hdrop : buf.drop pos = mac ++ rest) (hmac : mac.length = 6)
    (hpos : pos + 6 ≤ buf.length) :
    Node.decode ⟨buf, pos⟩ = .ok (⟨mac⟩, ⟨buf, pos + 6⟩) := by
  have h6 : ¬ (pos + 6 > buf.length) := by omega
  simp [Node.decode, Cursor.take, h6, hdrop]
  rw [show (6 : Nat) = mac.length from hmac.symm, List.take_left]

theorem optionNode_encode_none (out : List Nat) (h : out.length < 256) :
    optionNodeEncode none out = .ok (out ++ [0]) := by
  simp [optionNodeEncode, pushByte, MESSAGE_SIZE, h]

theorem optionNode_encode_some (v : Node) (out : List Nat) (h : out.length < 256)
    (hfit : out.length + 1 + v.mac.length ≤ 256) :
    optionNodeEncode (some v) out = .ok (out ++ 1 :: v.mac) := by
  have h1 : pushByte out 1 = .ok (out ++ [1]) := by simp [pushByte, MESSAGE_SIZE, h]
  have h2 := node_encode_ok v (out ++ [1]) (by simp; omega)
  simp [optionNodeEncode, h1, h2]

theorem optionNode_decode_zero (buf : List Nat) (pos : Nat) (hpos : pos + 1 ≤ buf.length)
    (hflag : buf.getD pos 0 = 0) :
    optionNodeDecode ⟨buf, pos⟩ = .ok (none, ⟨buf, pos + 1⟩) := by
  have h : ¬ (pos + 1 > buf.length) := by omega
  have ht : Cursor.takeByte ⟨buf, pos⟩ = .ok (buf.getD pos 0, ⟨buf, pos + 1⟩) := by
    simp [Cursor.takeByte, h]
  simp only [optionNodeDecode, ht, hflag]
  norm_num

theorem optionNode_decode_one (buf mac rest : List Nat) (pos : Nat)
    (hflag : buf.getD pos 0 = 1) (hdrop : buf.drop (pos + 1) = mac ++ rest)
    (hmac : mac.length = 6) (hlen : pos + 7 ≤ buf.length) :
    optionNodeDecode ⟨buf, pos⟩ = .ok (some ⟨mac⟩, ⟨buf, pos + 1 + 6⟩) := by
  have h : ¬ (pos + 1 > buf.length) := by omega
  have ht : Cursor.takeByte ⟨buf, pos⟩ = .ok (buf.getD pos 0, ⟨buf, pos + 1⟩) := by
    simp [Cursor.takeByte, h]
  have hdec := node_decode_eq buf mac rest (pos + 1) hdrop hmac (by omega)
  simp only [optionNodeDecode, ht, hflag, hdec]
  norm_num

/-- C1: for every well-formed `MessageContent` value `m` whose serialized
form fits in the 256-byte buffer (that is, `encode` succeeds), decoding the
produced bytes yields `m` again — all eight variants, including
`Application` payloads, `SendNew`'s node with its little-endian `i32` rssi,
and `UpsertEdge`'s two `Option<Node>` fields. -/
theorem c1_codec_roundtrip (m : MessageContent) (bs : List Nat) (hwf : m.Wf)
    (henc : m.encode [] = .ok bs) :
    ∃ c, MessageContent.decode (Cursor.new bs) = .ok (m, c) := by
  cases m with
  | application d =>
    simp only [MessageContent.encode, messageTypeOf, MessageType.toTag, pushByte, extendSlice,
      MESSAGE_SIZE, List.length_nil, List.nil_append, List.length_cons, exceptBind_ok,
      exceptBind_error, exceptMapError_ok, List.cons_append, List.singleton_append] at henc
    norm_num at henc
    split at henc
    case isTrue hle =>
      obtain ⟨rfl⟩ : 1 :: (d.length % 256) :: d = bs := by simpa using henc
      have hmod : d.length % 256 = d.length := Nat.mod_eq_of_lt (by omega)
      refine ⟨⟨1 :: (d.length % 256) :: d, 2 + d.length⟩, ?_⟩
      have h1 : ¬ (d.length + 1 + 1 < 2) := by omega
      have h2 : ¬ (d.length + 1 + 1 < 2 + d.length) := by omega
      simp only [MessageContent.decode, Cursor.new, Cursor.takeByte, Cursor.take,
        MessageType.tryFrom, extendSlice, MESSAGE_SIZE, List.length_cons, hmod,
        exceptBind_ok, exceptBind_error, exceptMapError_ok, exceptMapError_error,
        exceptPure_eq, List.getD_cons_zero, List.getD_cons_succ]
      norm_num
      rw [if_neg h1]
      simp only [exceptMapError_ok, exceptBind_ok, List.length_cons]
      rw [if_neg h2]
      have hdrop2 : List.drop 2 (1 :: d.length :: d) = d := rfl
      simp only [exceptMapError_ok, exceptBind_ok, hdrop2, List.take_length]
      rw [if_pos (by omega : d.length ≤ 256)]
      norm_num
    case isFalse => simp at henc
  | discovery =>
    simp only [MessageContent.encode, messageTypeOf, MessageType.toTag, pushByte,
      MESSAGE_SIZE, List.length_nil, List.nil_append] at henc
    norm_num at henc
    obtain ⟨rfl⟩ : [2] = bs := by simpa using henc
    exact ⟨⟨[2], 1⟩, by simp [MessageContent.decode, Cursor.new, Cursor.takeByte,
      MessageType.tryFrom]⟩
  | invitation =>
    simp only [MessageContent.encode, messageTypeOf, MessageType.toTag, pushByte,
      MESSAGE_SIZE, List.length_nil, List.nil_append] at henc
    norm_num at henc
    obtain ⟨rfl⟩ : [3] = bs := by simpa using henc
    exact ⟨⟨[3], 1⟩, by simp [MessageContent.decode, Cursor.new, Cursor.takeByte,
      MessageType.tryFrom]⟩
  | requestNews =>
    simp only [MessageContent.encode, messageTypeOf, MessageType.toTag, pushByte,
      MESSAGE_SIZE, List.length_nil, List.nil_append] at henc
    norm_num at henc
    obtain ⟨rfl⟩ : [4] = bs := by simpa using henc
    exact ⟨⟨[4], 1⟩, by simp [MessageContent.decode, Cursor.new, Cursor.takeByte,
      MessageType.tryFrom]⟩
  | finSendNew =>
    simp only [MessageContent.encode, messageTypeOf, MessageType.toTag, pushByte,
      MESSAGE_SIZE, List.length_nil, List.nil_append] at henc
    norm_num at henc
    obtain ⟨rfl⟩ : [6] = bs := by simpa using henc
    exact ⟨⟨[6], 1⟩, by simp [MessageContent.decode, Cursor.new, Cursor.takeByte,
      MessageType.tryFrom]⟩
  | sendNew n rssi =>
    obtain ⟨⟨hmac, _⟩, hlo, hhi⟩ := hwf
    simp only [MessageContent.encode, messageTypeOf, MessageType.toTag, pushByte,
      MESSAGE_SIZE, List.length_nil, List.nil_append, exceptBind_ok, exceptBind_error,
      exceptMapError_ok] at henc
    norm_num at henc
    rw [node_encode_ok n [5] (by simp [hmac])] at henc
    simp only [exceptBind_ok, exceptMapError_ok, extendSlice, MESSAGE_SIZE, List.length_append,
      List.length_cons, i32ToLeBytes_length, hmac, List.cons_append, List.singleton_append,
      List.nil_append] at henc
    norm_num at henc
    obtain ⟨rfl⟩ : 5 :: (n.mac ++ i32ToLeBytes rssi) = bs := by simpa using henc
    refine ⟨⟨5 :: (n.mac ++ i32ToLeBytes rssi), 11⟩, ?_⟩
    have hdec := node_decode_eq (5 :: (n.mac ++ i32ToLeBytes rssi)) n.mac (i32ToLeBytes rssi) 1
      (by simp) hmac (by simp [hmac, i32ToLeBytes_length])
    simp only [MessageContent.decode, Cursor.new, Cursor.takeByte, Cursor.take,
      MessageType.tryFrom, List.length_cons, List.length_append, i32ToLeBytes_length, hmac,
      exceptBind_ok, exceptMapError_ok, exceptMapError_error, exceptPure_eq]
    norm_num
    rw [hdec]
    have hdrop : (5 :: (n.mac ++ i32ToLeBytes rssi)).drop (1 + 6)
        = (n.mac ++ i32ToLeBytes rssi).drop 6 := rfl
    have hdrop2 : (n.mac ++ i32ToLeBytes rssi).drop 6 = i32ToLeBytes rssi := by
      rw [show (6 : Nat) = n.mac.length from hmac.symm, List.drop_left]
    have htake : (i32ToLeBytes rssi).take 4 = i32ToLeBytes rssi := by
      rw [show (4 : Nat) = (i32ToLeBytes rssi).length from (i32ToLeBytes_length rssi).symm,
        List.take_length]
    simp only [exceptBind_ok, exceptMapError_ok, List.length_cons, List.length_append,
      i32ToLeBytes_length, hmac, hdrop, hdrop2, htake]
    norm_num
    rw [i32_le_roundtrip rssi hlo hhi]
  | upsertEdge n p =>
    obtain ⟨hn, hp⟩ := hwf
    simp only [MessageContent.encode, messageTypeOf, MessageType.toTag, pushByte,
      MESSAGE_SIZE, List.length_nil, List.nil_append, exceptBind_ok, exceptBind_error,
      exceptMapError_ok] at henc
    norm_num at henc
    cases n with
    | none =>
      rw [optionNode_encode_none [7] (by norm_num)] at henc
      simp only [exceptBind_ok, exceptMapError_ok, List.cons_append, List.singleton_append,
        List.nil_append] at henc
      cases p with
      | none =>
        rw [optionNode_encode_none [7, 0] (by norm_num)] at henc
        simp only [exceptMapError_ok] at henc
        obtain ⟨rfl⟩ : [7, 0, 0] = bs := by simpa using henc
        exact ⟨⟨[7, 0, 0], 3⟩, by decide⟩
      | some w =>
        have hwm : w.mac.length = 6 := ((hp w rfl).1)
        rw [optionNode_encode_some w [7, 0] (by norm_num) (by simp [hwm])] at henc
        simp only [exceptMapError_ok, List.cons_append, List.singleton_append,
          List.nil_append] at henc
        obtain ⟨rfl⟩ : 7 :: 0 :: 1 :: w.mac = bs := by simpa using henc
        refine ⟨⟨7 :: 0 :: 1 :: w.mac, 9⟩, ?_⟩
        have hod1 : optionNodeDecode ⟨7 :: 0 :: 1 :: w.mac, 1⟩
            = .ok (none, ⟨7 :: 0 :: 1 :: w.mac, 1 + 1⟩) :=
          optionNode_decode_zero _ _ (by simp [hwm]) rfl
        have hod2 : optionNodeDecode ⟨7 :: 0 :: 1 :: w.mac, 2⟩
            = .ok (some ⟨w.mac⟩, ⟨7 :: 0 :: 1 :: w.mac, 2 + 1 + 6⟩) :=
          optionNode_decode_one _ w.mac [] 2 rfl (by simp) hwm (by simp [hwm])
        simp only [MessageContent.decode, Cursor.new, Cursor.takeByte, Cursor.take,
          MessageType.tryFrom, List.length_cons, List.length_append, hwm,
          exceptBind_ok, exceptMapError_ok, exceptMapError_error, exceptPure_eq]
        norm_num
        rw [hod1]
        norm_num
        rw [hod2]
        norm_num
    | some v =>
      have hvm : v.mac.length = 6 := ((hn v rfl).1)
      rw [optionNode_encode_some v [7] (by norm_num) (by simp [hvm])] at henc
      simp only [exceptBind_ok, exceptMapError_ok, List.cons_append, List.singleton_append,
        List.nil_append] at henc
      cases p with
      | none =>
        rw [optionNode_encode_none (7 :: 1 :: v.mac) (by simp [hvm])] at henc
        simp only [exceptMapError_ok, List.cons_append, List.singleton_append,
          List.nil_append] at henc
        obtain ⟨rfl⟩ : 7 :: 1 :: (v.mac ++ [0]) = bs := by simpa using henc
        refine ⟨⟨7 :: 1 :: (v.mac ++ [0]), 9⟩, ?_⟩
        have hod1 : optionNodeDecode ⟨7 :: 1 :: (v.mac ++ [0]), 1⟩
            = .ok (some ⟨v.mac⟩, ⟨7 :: 1 :: (v.mac ++ [0]), 1 + 1 + 6⟩) :=
          optionNode_decode_one _ v.mac [0] 1 rfl (by simp) hvm (by simp [hvm])
        have hg8 : (7 :: 1 :: (v.mac ++ [0])).getD 8 0 = 0 := by
          have h1 : (7 :: 1 :: (v.mac ++ [0])).getD 8 0 = (v.mac ++ [0]).getD 6 0 := rfl
          rw [h1, List.getD_append_right _ _ _ _ (by omega), hvm]
          simp
        have hod2 : optionNodeDecode ⟨7 :: 1 :: (v.mac ++ [0]), 8⟩
            = .ok (none, ⟨7 :: 1 :: (v.mac ++ [0]), 8 + 1⟩) :=
          optionNode_decode_zero _ _ (by simp [hvm]) hg8
        simp only [MessageContent.decode, Cursor.new, Cursor.takeByte, Cursor.take,
          MessageType.tryFrom, List.length_cons, List.length_append, hvm,
          exceptBind_ok, exceptMapError_ok, exceptMapError_error, exceptPure_eq]
        norm_num
        rw [hod1]
        norm_num
        rw [hod2]
        norm_num
      | some w =>
        have hwm : w.mac.length = 6 := ((hp w rfl).1)
        rw [optionNode_encode_some w (7 :: 1 :: v.mac) (by simp [hvm])
          (by simp [hvm, hwm])] at henc
        simp only [exceptMapError_ok, List.cons_append, List.singleton_append,
          List.nil_append] at henc
        obtain ⟨rfl⟩ : 7 :: 1 :: (v.mac ++ 1 :: w.mac) = bs := by simpa using henc
        refine ⟨⟨7 :: 1 :: (v.mac ++ 1 :: w.mac), 15⟩, ?_⟩
        have hod1 : optionNodeDecode ⟨7 :: 1 :: (v.mac ++ 1 :: w.mac), 1⟩
            = .ok (some ⟨v.mac⟩, ⟨7 :: 1 :: (v.mac ++ 1 :: w.mac), 1 + 1 + 6⟩) :=
          optionNode_decode_one _ v.mac (1 :: w.mac) 1 rfl (by simp) hvm (by simp [hvm])
        have hg8 : (7 :: 1 :: (v.mac ++ 1 :: w.mac)).getD 8 0 = 1 := by
          have h1 : (7 :: 1 :: (v.mac ++ 1 :: w.mac)).getD 8 0
              = (v.mac ++ 1 :: w.mac).getD 6 0 := rfl
          rw [h1, List.getD_append_right _ _ _ _ (by omega), hvm]
          simp
        have hd9 : (7 :: 1 :: (v.mac ++ 1 :: w.mac)).drop (8 + 1) = w.mac ++ [] := by
          have h1 : (7 :: 1 :: (v.mac ++ 1 :: w.mac)).drop (8 + 1)
              = (v.mac ++ 1 :: w.mac).drop 7 := rfl
          rw [h1, List.append_cons, List.drop_left' (by simp [hvm])]
          simp
        have hod2 : optionNodeDecode ⟨7 :: 1 :: (v.mac ++ 1 :: w.mac), 8⟩
            = .ok (some ⟨w.mac⟩, ⟨7 :: 1 :: (v.mac ++ 1 :: w.mac), 8 + 1 + 6⟩) :=
          optionNode_decode_one _ w.mac [] 8 hg8 hd9 hwm (by simp [hvm, hwm])
        simp only [MessageContent.decode, Cursor.new, Cursor.takeByte, Cursor.take,
          MessageType.tryFrom, List.length_cons, List.length_append, hvm, hwm,
          exceptBind_ok, exceptMapError_ok, exceptMapError_error, exceptPure_eq]
        norm_num
        rw [hod1]
        norm_num
        rw [hod2]
        norm_num
  | requestInitTopology n =>
    have hmac : n.mac.length = 6 := hwf.1
    simp only [MessageContent.encode, messageTypeOf, MessageType.toTag, pushByte,
      MESSAGE_SIZE, List.length_nil, List.nil_append, exceptBind_ok, exceptBind_error,
      exceptMapError_ok] at henc
    norm_num at henc
    rw [node_encode_ok n [8] (by simp [hmac])] at henc
    simp only [exceptMapError_ok, List.cons_append, List.singleton_append,
      List.nil_append] at henc
    obtain ⟨rfl⟩ : 8 :: n.mac = bs := by simpa using henc
    refine ⟨⟨8 :: n.mac, 7⟩, ?_⟩
    have hdec := node_decode_eq (8 :: n.mac) n.mac [] 1 (by simp) hmac (by simp [hmac])
    simp only [MessageContent.decode, Cursor.new, Cursor.takeByte, Cursor.take,
      MessageType.tryFrom, List.length_cons, hmac,
      exceptBind_ok, exceptMapError_ok, exceptMapError_error, exceptPure_eq]
    norm_num
    rw [hdec]
    norm_num

/-- Witness for C1 at a concrete `SendNew` message with a negative rssi. -/
theorem c1_codec_roundtrip_witness :
    (MessageContent.sendNew ⟨[1, 2, 3, 4, 5, 6]⟩ (-7)).Wf ∧
    (MessageContent.sendNew ⟨[1, 2, 3, 4, 5, 6]⟩ (-7)).encode []
      = .ok [5, 1, 2, 3, 4, 5, 6, 249, 255, 255, 255] ∧
    ∃ c, MessageContent.decode (Cursor.new [5, 1, 2, 3, 4, 5, 6, 249, 255, 255, 255])
      = .ok (.sendNew ⟨[1, 2, 3, 4, 5, 6]⟩ (-7), c) :=
  ⟨by decide, by decide,
    c1_codec_roundtrip (.sendNew ⟨[1, 2, 3, 4, 5, 6]⟩ (-7)) _ (by decide) (by decide)⟩

/-! ### Message type tags (C7) and `ReceiveMessage` construction (C6) -/

/-- C7: decoding a buffer whose first byte is 0x00 or 0x09..0xFF fails with
`InvalidMessageType` carrying that byte, while every byte in 0x01..=0x08 is
accepted as the `MessageType` variant with that discriminant. -/
theorem c7_message_type_tags (b : Nat) (hb : b < 256) (rest : List Nat) :
    ((b = 0 ∨ 9 ≤ b) →
      MessageContent.decode (Cursor.new (b :: rest))
        = .error (.messageTypeError (.invalidMessageType b))) ∧
    (1 ≤ b → b ≤ 8 → ∃ t, MessageType.tryFrom b = .ok t ∧ t.toTag = b) := by
  constructor
  · intro hbad
    have ht : Cursor.takeByte (Cursor.new (b :: rest)) = .ok (b, ⟨b :: rest, 0 + 1⟩) := by
      simp [Cursor.new, Cursor.takeByte]
    have htf : MessageType.tryFrom b = .error (.invalidMessageType b) := by
      unfold MessageType.tryFrom
      split_ifs with g1 g2 g3 g4 g5 g6 g7 g8 <;> first | rfl | (exfalso; omega)
    simp only [MessageContent.decode, ht, exceptMapError_ok, exceptBind_ok, htf,
      exceptMapError_error, exceptBind_error]
  · intro h1 h8
    interval_cases b
    · exact ⟨.application, by decide, rfl⟩
    · exact ⟨.discovery, by decide, rfl⟩
    · exact ⟨.invitation, by decide, rfl⟩
    · exact ⟨.requestNews, by decide, rfl⟩
    · exact ⟨.sendNew, by decide, rfl⟩
    · exact ⟨.finSendNew, by decide, rfl⟩
    · exact ⟨.upsertEdge, by decide, rfl⟩
    · exact ⟨.requestInitTopology, by decide, rfl⟩

/-- Witness for C7 at the tags 0, 42 and 5. -/
theorem c7_message_type_tags_witness :
    (MessageContent.decode (Cursor.new [0])
      = .error (.messageTypeError (.invalidMessageType 0))) ∧
    (MessageContent.decode (Cursor.new [42, 1, 2])
      = .error (.messageTypeError (.invalidMessageType 42))) ∧
    (∃ t, MessageType.tryFrom 5 = .ok t ∧ t.toTag = 5) :=
  ⟨(c7_message_type_tags 0 (by decide) []).1 (Or.inl rfl),
   (c7_message_type_tags 42 (by decide) [1, 2]).1 (Or.inr (by decide)),
   (c7_message_type_tags 5 (by decide) []).2 (by decide) (by decide)⟩

/-- C6: `ReceiveMessage::new` decodes content, then the final destination,
then the optional final source; the resulting `final_source` field is the
decoded node when the wire option was `Some`, and the link source when it
was `None` (`Option.getD`). -/
theorem c6_receive_message_final_source (payload : List Nat) (dst src : Node) (rssi : Int)
    (data : MessageContent) (fd : Node) (fsOpt : Option Node) (c1 c2 c3 : Cursor)
    (h1 : MessageContent.decode (Cursor.new payload) = .ok (data, c1))
    (h2 : Node.decode c1 = .ok (fd, c2))
    (h3 : optionNodeDecode c2 = .ok (fsOpt, c3)) :
    ReceiveMessage.new payload dst src rssi
      = .ok ⟨data, fd, dst, src, fsOpt.getD src, rssi⟩ := by
  simp only [ReceiveMessage.new, h1, h2, h3, exceptMapError_ok, exceptBind_ok]
  cases fsOpt <;> rfl

/-- Witness for C6: one frame without a wire final source (substituted with
the link source) and one with it present. -/
theorem c6_receive_message_final_source_witness :
    (ReceiveMessage.new [2, 9, 8, 7, 6, 5, 4, 0] ⟨[1, 1, 1, 1, 1, 1]⟩ ⟨[2, 2, 2, 2, 2, 2]⟩ 5
      = .ok ⟨.discovery, ⟨[9, 8, 7, 6, 5, 4]⟩, ⟨[1, 1, 1, 1, 1, 1]⟩, ⟨[2, 2, 2, 2, 2, 2]⟩,
             ⟨[2, 2, 2, 2, 2, 2]⟩, 5⟩) ∧
    (ReceiveMessage.new [2, 9, 8, 7, 6, 5, 4, 1, 3, 3, 3, 3, 3, 3]
        ⟨[1, 1, 1, 1, 1, 1]⟩ ⟨[2, 2, 2, 2, 2, 2]⟩ 5
      = .ok ⟨.discovery, ⟨[9, 8, 7, 6, 5, 4]⟩, ⟨[1, 1, 1, 1, 1, 1]⟩, ⟨[2, 2, 2, 2, 2, 2]⟩,
             ⟨[3, 3, 3, 3, 3, 3]⟩, 5⟩) :=
  ⟨c6_receive_message_final_source [2, 9, 8, 7, 6, 5, 4, 0]
      ⟨[1, 1, 1, 1, 1, 1]⟩ ⟨[2, 2, 2, 2, 2, 2]⟩ 5 .discovery ⟨[9, 8, 7, 6, 5, 4]⟩ none
      ⟨[2, 9, 8, 7, 6, 5, 4, 0], 1⟩ ⟨[2, 9, 8, 7, 6, 5, 4, 0], 7⟩
      ⟨[2, 9, 8, 7, 6, 5, 4, 0], 8⟩ (by decide) (by decide) (by decide),
   c6_receive_message_final_source [2, 9, 8, 7, 6, 5, 4, 1, 3, 3, 3, 3, 3, 3]
      ⟨[1, 1, 1, 1, 1, 1]⟩ ⟨[2, 2, 2, 2, 2, 2]⟩ 5 .discovery ⟨[9, 8, 7, 6, 5, 4]⟩
      (some ⟨[3, 3, 3, 3, 3, 3]⟩)
      ⟨[2, 9, 8, 7, 6, 5, 4, 1, 3, 3, 3, 3, 3, 3], 1⟩
      ⟨[2, 9, 8, 7, 6, 5, 4, 1, 3, 3, 3, 3, 3, 3], 7⟩
      ⟨[2, 9, 8, 7, 6, 5, 4, 1, 3, 3, 3, 3, 3, 3], 14⟩
      (by decide) (by decide) (by decide)⟩

/-! ### Oversized payloads (C8) -/

/-- The shape of a successful `Application` content encoding. -/
theorem encode_application_ok (d out : List Nat)
    (h : (MessageContent.application d).encode [] = .ok out) :
    out = 1 :: (d.length % 256) :: d ∧ 2 + d.length ≤ 256 := by
  simp only [MessageContent.encode, messageTypeOf, MessageType.toTag, pushByte, extendSlice,
    MESSAGE_SIZE, List.length_nil, List.nil_append, List.length_cons, exceptBind_ok,
    exceptBind_error, exceptMapError_ok, List.cons_append, List.singleton_append] at h
  norm_num at h
  split at h
  case isTrue hle =>
    refine ⟨?_, by omega⟩
    simpa using h.symm
  case isFalse => simp at h

/-- C8 counterexample: serializing an oversized `Application` payload (255
bytes, beyond `MESSAGE_SIZE` minus the 9-byte framing) fails, but with the
wrapped content-encode buffer error — not with `MessageTooLargeError` as
the claim states. -/
theorem c8_counterexample :
    SendMessage.serialize
        ⟨.application (List.replicate 255 0), ⟨[1, 2, 3, 4, 5, 6]⟩, none⟩
      = .error (.messageTypeEncodeError .bufferCapacityError) ∧
    SendMessageError.messageTypeEncodeError .bufferCapacityError
      ≠ SendMessageError.messageTooLargeError := by
  constructor
  · set_option maxRecDepth 4000 in decide
  · decide

/-- C8 amended: serializing an `Application` frame whose payload exceeds
`MESSAGE_SIZE` minus the framing overhead (tag + length byte + 6-byte final
destination + 1-byte absent final source = 9, so payloads over 247 bytes)
always fails, and the error is never `MessageTooLargeError` — that variant
is unreachable from `SendMessage::serialize`. -/
theorem c8_oversized_payload_amended :
    (∀ (d : List Nat) (dst : Node), dst.mac.length = 6 → 247 < d.length →
      ∀ bs, SendMessage.serialize ⟨.application d, dst, none⟩ ≠ .ok bs) ∧
    (∀ sm : SendMessage, SendMessage.serialize sm ≠ .error .messageTooLargeError) := by
  constructor
  · intro d dst hd hlen bs hok
    simp only [SendMessage.serialize] at hok
    cases hE : (MessageContent.application d).encode [] with
    | error e => rw [hE] at hok; simp at hok
    | ok out1 =>
      rw [hE] at hok
      obtain ⟨rfl, hle⟩ := encode_application_ok d out1 hE
      simp only [exceptMapError_ok, exceptBind_ok, Node.encode, extendSlice, MESSAGE_SIZE,
        List.length_cons, hd] at hok
      split at hok
      case isTrue h256 =>
        simp only [exceptMapError_ok, exceptBind_ok, optionNodeEncode, pushByte, MESSAGE_SIZE,
          List.length_append, List.length_cons, hd] at hok
        split at hok
        case isTrue h257 => omega
        case isFalse => simp at hok
      case isFalse => simp at hok
  · intro sm h
    simp only [SendMessage.serialize] at h
    cases h1 : sm.data.encode [] with
    | error e => rw [h1] at h; simp at h
    | ok out1 =>
      rw [h1] at h
      simp only [exceptMapError_ok, exceptBind_ok] at h
      cases h2 : sm.final_destination.encode out1 with
      | error e => rw [h2] at h; simp at h
      | ok out2 =>
        rw [h2] at h
        simp only [exceptMapError_ok, exceptBind_ok] at h
        cases h3 : optionNodeEncode sm.final_source out2 with
        | error e => rw [h3] at h; simp at h
        | ok out3 => rw [h3] at h; simp at h

/-- Witness for the amended C8 at a 248-byte payload. -/
theorem c8_oversized_payload_amended_witness :
    (SendMessage.serialize
        ⟨.application (List.replicate 248 0), ⟨[1, 2, 3, 4, 5, 6]⟩, none⟩ ≠ .ok [1, 2]) ∧
    (SendMessage.serialize ⟨.application [1], ⟨[1, 2, 3, 4, 5, 6]⟩, none⟩
      ≠ .error .messageTooLargeError) :=
  ⟨c8_oversized_payload_amended.1 (List.replicate 248 0) ⟨[1, 2, 3, 4, 5, 6]⟩
      (by decide) (by set_option maxRecDepth 4000 in decide) [1, 2],
   c8_oversized_payload_amended.2 ⟨.application [1], ⟨[1, 2, 3, 4, 5, 6]⟩, none⟩⟩

/-! ### Small concrete trees with symbolic nodes (C2, C3) -/

/-- The tree produced by `Tree::new`: the `Own` root alone, at slot 31. -/
def freshT : Tree :=
  ⟨⟨[30, 29, 28, 27, 26, 25, 24, 23, 22, 21, 20, 19, 18, 17, 16, 15, 14, 13, 12, 11, 10, 9, 8, 7, 6, 5, 4, 3, 2, 1, 0],
    [none, none, none, none,
     none, none, none, none,
     none, none, none, none,
     none, none, none, none,
     none, none, none, none,
     none, none, none, none,
     none, none, none, none,
     none, none, none, some (.own [])]⟩, 31⟩

/-- `freshT` after `upsert_edge(None, A)`: `A` at slot 30 under the root. -/
def treeA (A : Node) : Tree :=
  ⟨⟨[29, 28, 27, 26, 25, 24, 23, 22, 21, 20, 19, 18, 17, 16, 15, 14, 13, 12, 11, 10, 9, 8, 7, 6, 5, 4, 3, 2, 1, 0],
    [none, none, none, none,
     none, none, none, none,
     none, none, none, none,
     none, none, none, none,
     none, none, none, none,
     none, none, none, none,
     none, none, none, none,
     none, none, some (.foreign [] A), some (.own [30])]⟩, 31⟩

/-- `treeA` after `upsert_edge(Some A, B)`: the chain root → A → B. -/
def treeAB (A B : Node) : Tree :=
  ⟨⟨[28, 27, 26, 25, 24, 23, 22, 21, 20, 19, 18, 17, 16, 15, 14, 13, 12, 11, 10, 9, 8, 7, 6, 5, 4, 3, 2, 1, 0],
    [none, none, none, none,
     none, none, none, none,
     none, none, none, none,
     none, none, none, none,
     none, none, none, none,
     none, none, none, none,
     none, none, none, none,
     none, some (.foreign [] B), some (.foreign [29] A), some (.own [30])]⟩, 31⟩

/-- `treeAB` after the reparenting `upsert_edge(None, B)`: both `A` and `B` directly under the root. -/
def treeABr (A B : Node) : Tree :=
  ⟨⟨[28, 27, 26, 25, 24, 23, 22, 21, 20, 19, 18, 17, 16, 15, 14, 13, 12, 11, 10, 9, 8, 7, 6, 5, 4, 3, 2, 1, 0],
    [none, none, none, none,
     none, none, none, none,
     none, none, none, none,
     none, none, none, none,
     none, none, none, none,
     none, none, none, none,
     none, none, none, none,
     none, some (.foreign [] B), some (.foreign [] A), some (.own [30, 29])]⟩, 31⟩

/-- `treeAB` after `upsert_edge(Some B, C)`: the chain root → A → B → C. -/
def treeABC (A B C : Node) : Tree :=
  ⟨⟨[27, 26, 25, 24, 23, 22, 21, 20, 19, 18, 17, 16, 15, 14, 13, 12, 11, 10, 9, 8, 7, 6, 5, 4, 3, 2, 1, 0],
    [none, none, none, none,
     none, none, none, none,
     none, none, none, none,
     none, none, none, none,
     none, none, none, none,
     none, none, none, none,
     none, none, none, none,
     some (.foreign [] C), some (.foreign [28] B), some (.foreign [29] A), some (.own [30])]⟩, 31⟩


theorem tree_new_eq : Tree.new = .ok freshT := by decide

set_option maxRecDepth 100000 in
theorem upsert_step_A (A : Node) : freshT.upsert_edge none A = (.ok (), treeA A) := by
  simp [Tree.upsert_edge, Tree.insertStep, removeNodeHelper, removeScan, insertNodeHelper,
    freshT, treeA, FUEL, MAX_LEAFS, MAX_CHILD_LEAFS, Arena.get, Arena.set, Arena.alloc,
    Leaf.get_nexts, Leaf.set_nexts, Leaf.get_node]

set_option maxRecDepth 100000 in
theorem upsert_step_AB (A B : Node) (hAB : A ≠ B) :
    (treeA A).upsert_edge (some A) B = (.ok (), treeAB A B) := by
  simp [Tree.upsert_edge, Tree.insertStep, removeNodeHelper, removeScan, insertNodeHelper,
    treeA, treeAB, FUEL, MAX_LEAFS, MAX_CHILD_LEAFS, Arena.get, Arena.set, Arena.alloc,
    Leaf.get_nexts, Leaf.set_nexts, Leaf.get_node, hAB, Ne.symm hAB]

set_option maxRecDepth 100000 in
theorem upsert_step_reparent (A B : Node) (hAB : A ≠ B) :
    (treeAB A B).upsert_edge none B = (.ok (), treeABr A B) := by
  simp [Tree.upsert_edge, Tree.insertStep, removeNodeHelper, removeScan, insertNodeHelper,
    treeAB, treeABr, FUEL, MAX_LEAFS, MAX_CHILD_LEAFS, Arena.get, Arena.set, Arena.alloc,
    Leaf.get_nexts, Leaf.set_nexts, Leaf.get_node, hAB, Ne.symm hAB]

set_option maxRecDepth 100000 in
theorem upsert_step_BC (A B C : Node) (hAB : A ≠ B) (hAC : A ≠ C) (hBC : B ≠ C) :
    (treeAB A B).upsert_edge (some B) C = (.ok (), treeABC A B C) := by
  simp [Tree.upsert_edge, Tree.insertStep, removeNodeHelper, removeScan, insertNodeHelper,
    treeAB, treeABC, FUEL, MAX_LEAFS, MAX_CHILD_LEAFS, Arena.get, Arena.set, Arena.alloc,
    Leaf.get_nexts, Leaf.set_nexts, Leaf.get_node, hAB, hAC, hBC,
    Ne.symm hAB, Ne.symm hAC, Ne.symm hBC]

set_option maxRecDepth 100000 in
theorem height_treeABr (A B : Node) : (treeABr A B).height = 2 := by
  simp [Tree.height, heightHelper, treeABr, FUEL, MAX_LEAFS, Arena.get, Leaf.get_nexts]

set_option maxRecDepth 100000 in
theorem height_treeABC (A B C : Node) : (treeABC A B C).height = 4 := by
  simp [Tree.height, heightHelper, treeABC, FUEL, MAX_LEAFS, Arena.get, Leaf.get_nexts]

theorem nextHopHelper_hit (a : Arena) (dest : Node) (fuel : Nat) (cid : SlotId)
    (nexts : List SlotId) (h : a.get cid = .ok (.foreign nexts dest)) :
    nextHopHelper a dest (fuel + 1) cid = .ok dest := by
  simp [nextHopHelper, h]

theorem nextHopHelper_foreign_ne (a : Arena) (dest : Node) (fuel : Nat) (cid : SlotId)
    (nexts : List SlotId) (node : Node) (h : a.get cid = .ok (.foreign nexts node))
    (hne : node ≠ dest) :
    nextHopHelper a dest (fuel + 1) cid
      = (match nexts.find? (fun nid => (nextHopHelper a dest fuel nid).isOk) with
         | some retId =>
           (match a.get retId with
            | .error e => .error (.leafNotFoundError e)
            | .ok ret =>
              match ret.get_node with
              | some n => .ok n
              | none => .error .rootIsDestinationError)
         | none => .error .nodeNotFoundError) := by
  simp [nextHopHelper, h, hne, Leaf.get_nexts]

theorem nextHopHelper_own (a : Arena) (dest : Node) (fuel : Nat) (cid : SlotId)
    (nexts : List SlotId) (h : a.get cid = .ok (.own nexts)) :
    nextHopHelper a dest (fuel + 1) cid
      = (match nexts.find? (fun nid => (nextHopHelper a dest fuel nid).isOk) with
         | some retId =>
           (match a.get retId with
            | .error e => .error (.leafNotFoundError e)
            | .ok ret =>
              match ret.get_node with
              | some n => .ok n
              | none => .error .rootIsDestinationError)
         | none => .error .nodeNotFoundError) := by
  simp [nextHopHelper, h, Leaf.get_nexts]

theorem next_hop_treeABr (A B : Node) (hAB : A ≠ B) : (treeABr A B).next_hop B = .ok B := by
  have g30 : (treeABr A B).leafs.get 30 = .ok (.foreign [] A) := rfl
  have g29 : (treeABr A B).leafs.get 29 = .ok (.foreign [] B) := rfl
  have h30 : nextHopHelper (treeABr A B).leafs B 31 30 = .error .nodeNotFoundError := by
    rw [nextHopHelper_foreign_ne (treeABr A B).leafs B 30 30 [] A g30 hAB]
    rfl
  have h29 : nextHopHelper (treeABr A B).leafs B 31 29 = .ok B :=
    nextHopHelper_hit (treeABr A B).leafs B 30 29 [] g29
  have hf : List.find? (fun nid => (nextHopHelper (treeABr A B).leafs B 31 nid).isOk) [30, 29]
      = some 29 := by
    simp only [List.find?_cons, h30, h29, exceptIsOk_error, exceptIsOk_ok]
  show nextHopHelper (treeABr A B).leafs B 32 31 = .ok B
  rw [nextHopHelper_own (treeABr A B).leafs B 31 31 [30, 29] rfl, hf]
  rfl

theorem next_hop_treeABC_C (A B C : Node) (hAC : A ≠ C) (hBC : B ≠ C) :
    (treeABC A B C).next_hop C = .ok A := by
  have g30 : (treeABC A B C).leafs.get 30 = .ok (.foreign [29] A) := rfl
  have g29 : (treeABC A B C).leafs.get 29 = .ok (.foreign [28] B) := rfl
  have g28 : (treeABC A B C).leafs.get 28 = .ok (.foreign [] C) := rfl
  have h28 : nextHopHelper (treeABC A B C).leafs C 29 28 = .ok C :=
    nextHopHelper_hit (treeABC A B C).leafs C 28 28 [] g28
  have hf29 : List.find? (fun nid => (nextHopHelper (treeABC A B C).leafs C 29 nid).isOk) [28]
      = some 28 := by
    simp only [List.find?_cons, h28, exceptIsOk_ok]
  have h29 : nextHopHelper (treeABC A B C).leafs C 30 29 = .ok C := by
    rw [nextHopHelper_foreign_ne (treeABC A B C).leafs C 29 29 [28] B g29 hBC, hf29]
    rfl
  have hf30 : List.find? (fun nid => (nextHopHelper (treeABC A B C).leafs C 30 nid).isOk) [29]
      = some 29 := by
    simp only [List.find?_cons, h29, exceptIsOk_ok]
  have h30 : nextHopHelper (treeABC A B C).leafs C 31 30 = .ok B := by
    rw [nextHopHelper_foreign_ne (treeABC A B C).leafs C 30 30 [29] A g30 hAC, hf30]
    rfl
  have hf31 : List.find? (fun nid => (nextHopHelper (treeABC A B C).leafs C 31 nid).isOk) [30]
      = some 30 := by
    simp only [List.find?_cons, h30, exceptIsOk_ok]
  show nextHopHelper (treeABC A B C).leafs C 32 31 = .ok A
  rw [nextHopHelper_own (treeABC A B C).leafs C 31 31 [30] rfl, hf31]
  rfl

theorem next_hop_treeABC_B (A B C : Node) (hAB : A ≠ B) :
    (treeABC A B C).next_hop B = .ok A := by
  have g30 : (treeABC A B C).leafs.get 30 = .ok (.foreign [29] A) := rfl
  have g29 : (treeABC A B C).leafs.get 29 = .ok (.foreign [28] B) := rfl
  have h29 : nextHopHelper (treeABC A B C).leafs B 30 29 = .ok B :=
    nextHopHelper_hit (treeABC A B C).leafs B 29 29 [28] g29
  have hf30 : List.find? (fun nid => (nextHopHelper (treeABC A B C).leafs B 30 nid).isOk) [29]
      = some 29 := by
    simp only [List.find?_cons, h29, exceptIsOk_ok]
  have h30 : nextHopHelper (treeABC A B C).leafs B 31 30 = .ok B := by
    rw [nextHopHelper_foreign_ne (treeABC A B C).leafs B 30 30 [29] A g30 hAB, hf30]
    rfl
  have hf31 : List.find? (fun nid => (nextHopHelper (treeABC A B C).leafs B 31 nid).isOk) [30]
      = some 30 := by
    simp only [List.find?_cons, h30, exceptIsOk_ok]
  show nextHopHelper (treeABC A B C).leafs B 32 31 = .ok A
  rw [nextHopHelper_own (treeABC A B C).leafs B 31 31 [30] rfl, hf31]
  rfl


/-- C2: for every fresh `Tree` and distinct nodes `A` and `B`, after
`upsert_edge(None, A); upsert_edge(Some A, B); upsert_edge(None, B)` the
node `B` has been relocated to be a direct child of the root:
`next_hop(B) = Ok B` and `height() = 2`. -/
theorem c2_reparent_direct_child (t : Tree) (A B : Node) (hAB : A ≠ B)
    (ht : Tree.new = .ok t) :
    ((((t.upsert_edge none A).2.upsert_edge (some A) B).2.upsert_edge none B).2.next_hop B
      = .ok B) ∧
    (((t.upsert_edge none A).2.upsert_edge (some A) B).2.upsert_edge none B).2.height = 2 := by
  rw [tree_new_eq] at ht
  injection ht with h
  subst h
  simp only [upsert_step_A A, upsert_step_AB A B hAB, upsert_step_reparent A B hAB,
    next_hop_treeABr A B hAB, height_treeABr A B]
  exact ⟨trivial, trivial⟩

/-- Witness for C2 at two concrete distinct nodes. -/
theorem c2_reparent_direct_child_witness :
    ((((freshT.upsert_edge none ⟨[0, 0, 0, 0, 0, 1]⟩).2.upsert_edge
        (some ⟨[0, 0, 0, 0, 0, 1]⟩) ⟨[0, 0, 0, 0, 0, 2]⟩).2.upsert_edge
        none ⟨[0, 0, 0, 0, 0, 2]⟩).2.next_hop ⟨[0, 0, 0, 0, 0, 2]⟩
      = .ok ⟨[0, 0, 0, 0, 0, 2]⟩) ∧
    (((freshT.upsert_edge none ⟨[0, 0, 0, 0, 0, 1]⟩).2.upsert_edge
        (some ⟨[0, 0, 0, 0, 0, 1]⟩) ⟨[0, 0, 0, 0, 0, 2]⟩).2.upsert_edge
        none ⟨[0, 0, 0, 0, 0, 2]⟩).2.height = 2 :=
  c2_reparent_direct_child freshT ⟨[0, 0, 0, 0, 0, 1]⟩ ⟨[0, 0, 0, 0, 0, 2]⟩
    (by decide) (by decide)

/-- C3: for every fresh `Tree` and distinct nodes `A`, `B`, `C`, after
`upsert_edge(None, A); upsert_edge(Some A, B); upsert_edge(Some B, C)` the
tree is the chain root → A → B → C: `height() = 4`, and both `next_hop(C)`
and `next_hop(B)` return `A`, the root's child whose subtree contains the
destination. -/
theorem c3_deep_chain_next_hop (t : Tree) (A B C : Node)
    (hAB : A ≠ B) (hAC : A ≠ C) (hBC : B ≠ C) (ht : Tree.new = .ok t) :
    (((t.upsert_edge none A).2.upsert_edge (some A) B).2.upsert_edge (some B) C).2.height = 4 ∧
    ((((t.upsert_edge none A).2.upsert_edge (some A) B).2.upsert_edge (some B) C).2.next_hop C
      = .ok A) ∧
    ((((t.upsert_edge none A).2.upsert_edge (some A) B).2.upsert_edge (some B) C).2.next_hop B
      = .ok A) := by
  rw [tree_new_eq] at ht
  injection ht with h
  subst h
  simp only [upsert_step_A A, upsert_step_AB A B hAB, upsert_step_BC A B C hAB hAC hBC,
    height_treeABC A B C, next_hop_treeABC_C A B C hAC hBC, next_hop_treeABC_B A B C hAB]
  exact ⟨trivial, trivial, trivial⟩

/-- Witness for C3 at three concrete distinct nodes. -/
theorem c3_deep_chain_next_hop_witness :
    (((freshT.upsert_edge none ⟨[0, 0, 0, 0, 0, 1]⟩).2.upsert_edge
        (some ⟨[0, 0, 0, 0, 0, 1]⟩) ⟨[0, 0, 0, 0, 0, 2]⟩).2.upsert_edge
        (some ⟨[0, 0, 0, 0, 0, 2]⟩) ⟨[0, 0, 0, 0, 0, 3]⟩).2.height = 4 ∧
    ((((freshT.upsert_edge none ⟨[0, 0, 0, 0, 0, 1]⟩).2.upsert_edge
        (some ⟨[0, 0, 0, 0, 0, 1]⟩) ⟨[0, 0, 0, 0, 0, 2]⟩).2.upsert_edge
        (some ⟨[0, 0, 0, 0, 0, 2]⟩) ⟨[0, 0, 0, 0, 0, 3]⟩).2.next_hop ⟨[0, 0, 0, 0, 0, 3]⟩
      = .ok ⟨[0, 0, 0, 0, 0, 1]⟩) ∧
    ((((freshT.upsert_edge none ⟨[0, 0, 0, 0, 0, 1]⟩).2.upsert_edge
        (some ⟨[0, 0, 0, 0, 0, 1]⟩) ⟨[0, 0, 0, 0, 0, 2]⟩).2.upsert_edge
        (some ⟨[0, 0, 0, 0, 0, 2]⟩) ⟨[0, 0, 0, 0, 0, 3]⟩).2.next_hop ⟨[0, 0, 0, 0, 0, 2]⟩
      = .ok ⟨[0, 0, 0, 0, 0, 1]⟩) :=
  c3_deep_chain_next_hop freshT ⟨[0, 0, 0, 0, 0, 1]⟩ ⟨[0, 0, 0, 0, 0, 2]⟩ ⟨[0, 0, 0, 0, 0, 3]⟩
    (by decide) (by decide) (by decide) (by decide)


/-! ### Stored node identities and the effect of `upsert_edge` (C4, C5, C9, C10) -/

/-- The node identity stored in an arena slot, if any: `Foreign` leaves
carry their node, everything else none. -/
def leafNode? : Option Leaf → Option Node
  | some (.foreign _ node) => some node
  | _ => none

/-- The node identities of all `Foreign` leaves held in the arena's slots
(live, attached or detached alike). -/
def Arena.storedNodes (a : Arena) : List Node := a.slots.filterMap leafNode?

/-- `a` stores `n`: some slot holds a `Foreign` leaf whose node is `n`. -/
def Arena.stores (a : Arena) (n : Node) : Prop := n ∈ a.storedNodes

instance (a : Arena) (n : Node) : Decidable (a.stores n) := by
  unfold Arena.stores; infer_instance

theorem leafNode?_set_nexts (l : Leaf) (ns : List SlotId) :
    leafNode? (some (l.set_nexts ns)) = leafNode? (some l) := by
  cases l <;> rfl

theorem get_eq_some_getElem (a : Arena) (cid : SlotId) (leaf : Leaf)
    (h : a.get cid = .ok leaf) : a.slots[cid]? = some (some leaf) := by
  unfold Arena.get at h
  rw [List.getD_eq_getElem?_getD] at h
  cases hg : a.slots[cid]? with
  | none => rw [hg] at h; simp at h
  | some s =>
    rw [hg] at h
    cases s with
    | none => simp at h
    | some leaf' => simp at h; rw [h]

theorem stores_of_get_foreign (a : Arena) (cid : SlotId) (nexts : List SlotId) (node : Node)
    (h : a.get cid = .ok (.foreign nexts node)) : a.stores node := by
  have hm : (some (Leaf.foreign nexts node)) ∈ a.slots :=
    List.getElem?_mem (get_eq_some_getElem a cid _ h)
  exact List.mem_filterMap.mpr ⟨_, hm, rfl⟩

theorem filterMap_set_congr {α β : Type} [DecidableEq β] (f : α → Option β) :
    ∀ (l : List α) (i : Nat) (y : α), (∀ x, l[i]? = some x → f x = f y) →
      (l.set i y).filterMap f = l.filterMap f
  | [], _, _, _ => rfl
  | x :: tl, 0, y, h => by
    simp only [List.set_cons_zero, List.filterMap_cons]
    rw [h x (by simp)]
  | x :: tl, i + 1, y, h => by
    simp only [List.set_cons_succ, List.filterMap_cons]
    rw [filterMap_set_congr f tl i y (fun x hx => h x (by simpa using hx))]

theorem mem_filterMap_set {α β : Type} (f : α → Option β) :
    ∀ (l : List α) (i : Nat) (y : α) (b : β), b ∈ (l.set i y).filterMap f →
      b ∈ l.filterMap f ∨ f y = some b := by
  intro l i y b hb
  obtain ⟨x, hx, hfx⟩ := List.mem_filterMap.mp hb
  rcases List.mem_or_eq_of_mem_set hx with hxl | rfl
  · exact Or.inl (List.mem_filterMap.mpr ⟨x, hxl, hfx⟩)
  · exact Or.inr hfx

/-- A functional write that only changes a leaf's child list leaves the set
of stored node identities unchanged. -/
theorem storedNodes_set_nexts (a : Arena) (cid : SlotId) (current : Leaf) (ns : List SlotId)
    (h : a.get cid = .ok current) :
    (a.set cid (current.set_nexts ns)).storedNodes = a.storedNodes := by
  unfold Arena.set Arena.storedNodes
  apply filterMap_set_congr
  intro x hx
  rw [get_eq_some_getElem a cid current h] at hx
  cases hx
  rw [leafNode?_set_nexts]

/-- Allocation can only add the allocated leaf's identity. -/
theorem stores_alloc (a : Arena) (v : Leaf) (sid : SlotId) (a' : Arena)
    (h : a.alloc v = some (sid, a')) (n : Node) (hn : a'.stores n) :
    a.stores n ∨ leafNode? (some v) = some n := by
  unfold Arena.alloc at h
  cases hf : a.free with
  | nil => rw [hf] at h; simp at h
  | cons id rest =>
    rw [hf] at h
    simp only [Option.some.injEq, Prod.mk.injEq] at h
    obtain ⟨h1, h2⟩ := h
    subst h1
    subst h2
    exact mem_filterMap_set leafNode? a.slots _ (some v) n hn

theorem removeScan_some_stores (a : Arena) (address : Node) :
    ∀ (l : List SlotId) (idx pos : Nat), removeScan a address l idx = some pos →
      a.stores address
  | [], idx, pos, h => by simp [removeScan] at h
  | nid :: rest, idx, pos, h => by
    simp only [removeScan] at h
    split at h
    · exact removeScan_some_stores a address rest (idx + 1) pos h
    · exact removeScan_some_stores a address rest (idx + 1) pos h
    · next nexts node hg =>
      split at h
      · next heq =>
        subst heq
        exact stores_of_get_foreign a nid nexts node hg
      · exact removeScan_some_stores a address rest (idx + 1) pos h

theorem removeNodeHelper_storedNodes (a : Arena) (address : Node) :
    ∀ (fuel : Nat) (cid id : SlotId) (a' : Arena),
      removeNodeHelper a address fuel cid = some (id, a') →
      a'.storedNodes = a.storedNodes := by
  intro fuel
  induction fuel with
  | zero => intro cid id a' h; simp [removeNodeHelper] at h
  | succ fuel ih =>
    intro cid id a' h
    simp only [removeNodeHelper] at h
    split at h
    · simp at h
    · next current hg =>
      split at h
      · simp only [Option.some.injEq, Prod.mk.injEq] at h
        obtain ⟨-, h2⟩ := h
        subst h2
        exact storedNodes_set_nexts a cid current _ hg
      · obtain ⟨nid, hmem, hrec⟩ := List.exists_of_findSome?_eq_some h
        exact ih nid id a' hrec

theorem removeNodeHelper_eq_none (a : Arena) (address : Node) (hns : ¬ a.stores address) :
    ∀ (fuel : Nat) (cid : SlotId), removeNodeHelper a address fuel cid = none := by
  intro fuel
  induction fuel with
  | zero => intro cid; simp [removeNodeHelper]
  | succ fuel ih =>
    intro cid
    simp only [removeNodeHelper]
    split
    · rfl
    · next current hg =>
      cases hs : removeScan a address current.get_nexts 0 with
      | some pos => exact absurd (removeScan_some_stores a address _ 0 pos hs) hns
      | none => exact List.findSome?_eq_none_iff.mpr fun nid _ => ih nid

theorem insertNodeHelper_some_stores (a : Arena) (pn : Node) (lid : SlotId) :
    ∀ (fuel : Nat) (cid : SlotId) (a' : Arena),
      insertNodeHelper a (some pn) lid fuel cid = some a' → a.stores pn := by
  intro fuel
  induction fuel with
  | zero => intro cid a' h; simp [insertNodeHelper] at h
  | succ fuel ih =>
    intro cid a' h
    simp only [insertNodeHelper] at h
    split at h
    · simp at h
    · next current hg =>
      split at h
      · next hnode =>
        cases current with
        | own nexts => simp [Leaf.get_node] at hnode
        | foreign nexts node =>
          simp only [Leaf.get_node, Option.some.injEq] at hnode
          exact stores_of_get_foreign a cid nexts pn (hnode ▸ hg)
      · obtain ⟨nid, hmem, hrec⟩ := List.exists_of_findSome?_eq_some h
        exact ih nid a' hrec

theorem insertNodeHelper_storedNodes (a : Arena) (p : Option Node) (lid : SlotId) :
    ∀ (fuel : Nat) (cid : SlotId) (a' : Arena),
      insertNodeHelper a p lid fuel cid = some a' →
      a'.storedNodes = a.storedNodes := by
  intro fuel
  induction fuel with
  | zero => intro cid a' h; simp [insertNodeHelper] at h
  | succ fuel ih =>
    intro cid a' h
    simp only [insertNodeHelper] at h
    split at h
    · simp at h
    · next current hg =>
      split at h
      · split at h
        · simp only [Option.some.injEq] at h
          subst h
          exact storedNodes_set_nexts a cid current _ hg
        · simp at h
      · obtain ⟨nid, hmem, hrec⟩ := List.exists_of_findSome?_eq_some h
        exact ih nid a' hrec

/-- A slot is compatible with the `from`-parent `p` being saturated: if it
holds a `Foreign` leaf with identity `p`, its child list is full. -/
def slotFullFor (p : Node) : Option Leaf → Prop
  | some (.foreign nexts node) => node = p → MAX_CHILD_LEAFS ≤ nexts.length
  | _ => True

instance (p : Node) : (s : Option Leaf) → Decidable (slotFullFor p s)
  | some (.foreign nexts node) => by unfold slotFullFor; infer_instance
  | some (.own nexts) => by unfold slotFullFor; infer_instance
  | none => by unfold slotFullFor; infer_instance

theorem insertNodeHelper_full_none (a : Arena) (pn : Node) (lid : SlotId)
    (hfull : ∀ s ∈ a.slots, slotFullFor pn s) :
    ∀ (fuel : Nat) (cid : SlotId), insertNodeHelper a (some pn) lid fuel cid = none := by
  intro fuel
  induction fuel with
  | zero => intro cid; simp [insertNodeHelper]
  | succ fuel ih =>
    intro cid
    simp only [insertNodeHelper]
    split
    · rfl
    · next current hg =>
      by_cases hnode : current.get_node = some pn
      · rw [if_pos hnode]
        cases current with
        | own nexts => simp [Leaf.get_node] at hnode
        | foreign nexts node =>
          simp only [Leaf.get_node, Option.some.injEq] at hnode
          have hgf : a.get cid = .ok (.foreign nexts pn) := hnode ▸ hg
          have hmem : (some (Leaf.foreign nexts pn)) ∈ a.slots :=
            List.getElem?_mem (get_eq_some_getElem a cid _ hgf)
          have hlen := hfull _ hmem rfl
          rw [if_neg (by simp only [Leaf.get_nexts]; omega)]
      · rw [if_neg hnode]
        exact List.findSome?_eq_none_iff.mpr fun nid _ => ih nid

theorem nextHopHelper_get_error (a : Arena) (dest : Node) (fuel : Nat) (cid : SlotId)
    (e : ArenaError) (h : a.get cid = .error e) :
    nextHopHelper a dest (fuel + 1) cid = .error (.leafNotFoundError e) := by
  simp [nextHopHelper, h]

theorem nextHopHelper_isOk_stores (a : Arena) (dest : Node) :
    ∀ (fuel : Nat) (cid : SlotId),
      (nextHopHelper a dest fuel cid).isOk = true → a.stores dest := by
  intro fuel
  induction fuel with
  | zero => intro cid h; simp [nextHopHelper] at h
  | succ fuel ih =>
    intro cid h
    cases hgg : a.get cid with
    | error e => rw [nextHopHelper_get_error a dest fuel cid e hgg] at h; simp at h
    | ok current =>
      cases current with
      | foreign nexts node =>
        by_cases hnd : node = dest
        · exact hnd ▸ stores_of_get_foreign a cid nexts node hgg
        · rw [nextHopHelper_foreign_ne a dest fuel cid nexts node hgg hnd] at h
          cases hf : nexts.find? (fun nid => (nextHopHelper a dest fuel nid).isOk) with
          | some retId => exact ih retId (by simpa using List.find?_some hf)
          | none => rw [hf] at h; simp at h
      | own nexts =>
        rw [nextHopHelper_own a dest fuel cid nexts hgg] at h
        cases hf : nexts.find? (fun nid => (nextHopHelper a dest fuel nid).isOk) with
        | some retId => exact ih retId (by simpa using List.find?_some hf)
        | none => rw [hf] at h; simp at h

theorem nextHopHelper_not_stored (a : Arena) (dest : Node) (hns : ¬ a.stores dest)
    (fuel : Nat) (cid : SlotId) (current : Leaf) (hg : a.get cid = .ok current) :
    nextHopHelper a dest (fuel + 1) cid = .error .nodeNotFoundError := by
  have hfind : ∀ nexts : List SlotId,
      nexts.find? (fun nid => (nextHopHelper a dest fuel nid).isOk) = none := by
    intro nexts
    refine List.find?_eq_none.mpr fun nid _ hb => ?_
    exact hns (nextHopHelper_isOk_stores a dest fuel nid (by simpa using hb))
  cases current with
  | foreign nexts node =>
    have hnd : node ≠ dest := fun h => hns (h ▸ stores_of_get_foreign a cid nexts node hg)
    rw [nextHopHelper_foreign_ne a dest fuel cid nexts node hg hnd, hfind nexts]
  | own nexts =>
    rw [nextHopHelper_own a dest fuel cid nexts hg, hfind nexts]

/-- Per-slot liveness of the stored child ids. -/
def slotNextsLive (a : Arena) : Option Leaf → Prop
  | some leaf => ∀ nid ∈ leaf.get_nexts, (a.get nid).isOk = true
  | none => True

instance (a : Arena) : (s : Option Leaf) → Decidable (slotNextsLive a s)
  | some leaf => by unfold slotNextsLive; infer_instance
  | none => by unfold slotNextsLive; infer_instance

/-- Liveness well-formedness of the arena, as `Tree::new` and `upsert_edge`
maintain it: free ids denote empty slots, and every child id stored in a
live leaf denotes a live slot. -/
def Arena.WfLive (a : Arena) : Prop :=
  (∀ id ∈ a.free, a.slots.getD id none = none) ∧
  (∀ s ∈ a.slots, slotNextsLive a s)

instance (a : Arena) : Decidable a.WfLive := by
  unfold Arena.WfLive; infer_instance

theorem alloc_get_frame (a : Arena) (v : Leaf) (sid : SlotId) (a' : Arena)
    (h : a.alloc v = some (sid, a'))
    (hfree : ∀ id ∈ a.free, a.slots.getD id none = none)
    (cid : SlotId) (hlive : (a.get cid).isOk = true) : a'.get cid = a.get cid := by
  unfold Arena.alloc at h
  cases hf : a.free with
  | nil => rw [hf] at h; simp at h
  | cons hd rest =>
    rw [hf] at h
    simp only [Option.some.injEq, Prod.mk.injEq] at h
    obtain ⟨h1, h2⟩ := h
    have hsid : a.slots.getD sid none = none := by
      apply hfree
      rw [hf, ← h1]
      exact List.mem_cons_self hd rest
    have hne : cid ≠ sid := by
      intro he
      subst he
      unfold Arena.get at hlive
      rw [hsid] at hlive
      simp at hlive
    rw [← h2]
    show Arena.get ⟨rest, a.slots.set hd (some v)⟩ cid = a.get cid
    unfold Arena.get
    rw [List.getD_eq_getElem?_getD, List.getD_eq_getElem?_getD,
      List.getElem?_set_ne (fun he => hne (he.symm.trans h1))]

theorem find?_congr_fn {α : Type} (p q : α → Bool) :
    ∀ l : List α, (∀ x ∈ l, p x = q x) → l.find? p = l.find? q
  | [], _ => rfl
  | x :: tl, h => by
    simp only [List.find?_cons, h x (List.mem_cons_self x tl)]
    cases q x
    · simpa using find?_congr_fn p q tl fun y hy => h y (List.mem_cons_of_mem x hy)
    · rfl

theorem alloc_nextHop_frame (a : Arena) (v : Leaf) (sid : SlotId) (a' : Arena)
    (h : a.alloc v = some (sid, a')) (hw : a.WfLive) (dest : Node) :
    ∀ (fuel : Nat) (cid : SlotId), (a.get cid).isOk = true →
      nextHopHelper a' dest fuel cid = nextHopHelper a dest fuel cid := by
  intro fuel
  induction fuel with
  | zero => intro cid _; rfl
  | succ fuel ih =>
    intro cid hlive
    have hgf : a'.get cid = a.get cid := alloc_get_frame a v sid a' h hw.1 cid hlive
    cases hgc : a.get cid with
    | error e =>
      rw [nextHopHelper_get_error a' dest fuel cid e (hgf.trans hgc),
        nextHopHelper_get_error a dest fuel cid e hgc]
    | ok current =>
      have hch : ∀ nid ∈ current.get_nexts, (a.get nid).isOk = true := by
        have hmem : (some current) ∈ a.slots :=
          List.getElem?_mem (get_eq_some_getElem a cid current hgc)
        exact hw.2 (some current) hmem
      have hfind : current.get_nexts.find? (fun nid => (nextHopHelper a' dest fuel nid).isOk)
          = current.get_nexts.find? (fun nid => (nextHopHelper a dest fuel nid).isOk) :=
        find?_congr_fn _ _ _ fun x hx => by rw [ih x (hch x hx)]
      have hret : ∀ retId,
          current.get_nexts.find? (fun nid => (nextHopHelper a dest fuel nid).isOk)
            = some retId → a'.get retId = a.get retId := fun retId hfr =>
        alloc_get_frame a v sid a' h hw.1 retId (hch retId (List.mem_of_find?_eq_some hfr))
      cases current with
      | foreign nexts node =>
        by_cases hnd : node = dest
        · have hgc' : a.get cid = .ok (.foreign nexts dest) := hnd ▸ hgc
          rw [nextHopHelper_hit a' dest fuel cid nexts (hgf.trans hgc'),
            nextHopHelper_hit a dest fuel cid nexts hgc']
        · rw [nextHopHelper_foreign_ne a' dest fuel cid nexts node (hgf.trans hgc) hnd,
            nextHopHelper_foreign_ne a dest fuel cid nexts node hgc hnd]
          simp only [Leaf.get_nexts] at hfind hret
          rw [hfind]
          cases hfr : nexts.find? (fun nid => (nextHopHelper a dest fuel nid).isOk) with
          | none => rfl
          | some retId => simp only [hret retId hfr]
      | own nexts =>
        rw [nextHopHelper_own a' dest fuel cid nexts (hgf.trans hgc),
          nextHopHelper_own a dest fuel cid nexts hgc]
        simp only [Leaf.get_nexts] at hfind hret
        rw [hfind]
        cases hfr : nexts.find? (fun nid => (nextHopHelper a dest fuel nid).isOk) with
        | none => rfl
        | some retId => simp only [hret retId hfr]

theorem alloc_slots (a : Arena) (v : Leaf) (sid : SlotId) (a' : Arena)
    (h : a.alloc v = some (sid, a')) : a'.slots = a.slots.set sid (some v) := by
  unfold Arena.alloc at h
  cases hf : a.free with
  | nil => rw [hf] at h; simp at h
  | cons hd rest =>
    rw [hf] at h
    simp only [Option.some.injEq, Prod.mk.injEq] at h
    obtain ⟨h1, h2⟩ := h
    rw [← h2, ← h1]

/-- `upsert_edge` can only add the identity `child` to the stored nodes:
step 1 either detaches an existing leaf (same stored set) or allocates a
`Foreign` leaf for `child`, and step 2 only edits child lists. -/
theorem upsert_edge_stores (t : Tree) (parent : Option Node) (child : Node) (n : Node)
    (hn : (t.upsert_edge parent child).2.leafs.stores n) :
    t.leafs.stores n ∨ n = child := by
  unfold Tree.upsert_edge at hn
  cases hr : removeNodeHelper t.leafs child FUEL t.root_id with
  | some r =>
    obtain ⟨leafId, a'⟩ := r
    rw [hr] at hn
    have e2 := removeNodeHelper_storedNodes t.leafs child FUEL t.root_id leafId a' hr
    simp only [Tree.insertStep] at hn
    cases hi : insertNodeHelper a' parent leafId FUEL t.root_id with
    | some a'' =>
      rw [hi] at hn
      have e1 := insertNodeHelper_storedNodes a' parent leafId FUEL t.root_id a'' hi
      left
      unfold Arena.stores at hn ⊢
      rw [e1, e2] at hn
      exact hn
    | none =>
      rw [hi] at hn
      left
      unfold Arena.stores at hn ⊢
      rw [e2] at hn
      exact hn
  | none =>
    rw [hr] at hn
    cases ha : t.leafs.alloc (.foreign [] child) with
    | none => rw [ha] at hn; exact Or.inl hn
    | some r =>
      obtain ⟨sid, a'⟩ := r
      rw [ha] at hn
      simp only [Tree.insertStep] at hn
      cases hi : insertNodeHelper a' parent sid FUEL t.root_id with
      | some a'' =>
        rw [hi] at hn
        have e1 := insertNodeHelper_storedNodes a' parent sid FUEL t.root_id a'' hi
        have hn' : a'.stores n := by
          unfold Arena.stores at hn ⊢
          rw [e1] at hn
          exact hn
        rcases stores_alloc t.leafs _ sid a' ha n hn' with hin | hleaf
        · exact Or.inl hin
        · right
          simpa [leafNode?] using hleaf.symm
      | none =>
        rw [hi] at hn
        rcases stores_alloc t.leafs _ sid a' ha n hn with hin | hleaf
        · exact Or.inl hin
        · right
          simpa [leafNode?] using hleaf.symm

/-- Shared conclusion of the failed-insert upsert analyses: with `to`
not stored, the arena not full, and the insert step failing everywhere,
`upsert_edge` returns `NodeNotFound` and leaves `to` unreachable. -/
theorem upsert_edge_insert_fails (t : Tree) (p X : Node) (sid : SlotId) (a' : Arena)
    (hXns : ¬ t.leafs.stores X)
    (ha : t.leafs.alloc (.foreign [] X) = some (sid, a'))
    (hins : ∀ cid, insertNodeHelper a' (some p) sid FUEL cid = none)
    (hw : t.leafs.WfLive) (hroot : (t.leafs.get t.root_id).isOk = true) :
    (t.upsert_edge (some p) X).1 = .error .nodeNotFoundError ∧
    ¬ (((t.upsert_edge (some p) X).2.next_hop X).isOk = true) := by
  have hrem := removeNodeHelper_eq_none t.leafs X hXns FUEL t.root_id
  have htree : t.upsert_edge (some p) X = (.error .nodeNotFoundError, ⟨a', t.root_id⟩) := by
    simp only [Tree.upsert_edge, Tree.insertStep, hrem, ha, hins]
  refine ⟨by rw [htree], ?_⟩
  rw [htree]
  intro hok
  unfold Tree.next_hop at hok
  rw [show (⟨a', t.root_id⟩ : Tree).leafs = a' from rfl,
    show (⟨a', t.root_id⟩ : Tree).root_id = t.root_id from rfl] at hok
  rw [alloc_nextHop_frame t.leafs _ sid a' ha hw X FUEL t.root_id hroot] at hok
  exact hXns (nextHopHelper_isOk_stores t.leafs X FUEL t.root_id hok)

theorem upsert_edge_unknown_parent (t : Tree) (p X : Node)
    (hpX : p ≠ X) (hpns : ¬ t.leafs.stores p) (hXns : ¬ t.leafs.stores X)
    (hfree : t.leafs.free ≠ []) (hw : t.leafs.WfLive)
    (hroot : (t.leafs.get t.root_id).isOk = true) :
    (t.upsert_edge (some p) X).1 = .error .nodeNotFoundError ∧
    ¬ (((t.upsert_edge (some p) X).2.next_hop X).isOk = true) := by
  obtain ⟨sid, a', ha⟩ : ∃ sid a', t.leafs.alloc (.foreign [] X) = some (sid, a') := by
    unfold Arena.alloc
    cases hf : t.leafs.free with
    | nil => exact absurd hf hfree
    | cons hd rest => exact ⟨hd, _, rfl⟩
  have hins : ∀ cid, insertNodeHelper a' (some p) sid FUEL cid = none := by
    intro cid
    cases hi : insertNodeHelper a' (some p) sid FUEL cid with
    | none => rfl
    | some a'' =>
      exfalso
      have hst := insertNodeHelper_some_stores a' p sid FUEL cid a'' hi
      rcases stores_alloc t.leafs _ sid a' ha p hst with hpa | hleaf
      · exact hpns hpa
      · simp only [leafNode?, Option.some.injEq] at hleaf
        exact hpX hleaf.symm
  exact upsert_edge_insert_fails t p X sid a' hXns ha hins hw hroot

theorem upsert_edge_full_parent (t : Tree) (p X : Node)
    (hfull : ∀ s ∈ t.leafs.slots, slotFullFor p s)
    (hstored : t.leafs.stores p) (hXns : ¬ t.leafs.stores X)
    (hfree : t.leafs.free ≠ []) (hw : t.leafs.WfLive)
    (hroot : (t.leafs.get t.root_id).isOk = true) :
    (t.upsert_edge (some p) X).1 = .error .nodeNotFoundError ∧
    ¬ (((t.upsert_edge (some p) X).2.next_hop X).isOk = true) := by
  have hpX : p ≠ X := fun he => hXns (he ▸ hstored)
  obtain ⟨sid, a', ha⟩ : ∃ sid a', t.leafs.alloc (.foreign [] X) = some (sid, a') := by
    unfold Arena.alloc
    cases hf : t.leafs.free with
    | nil => exact absurd hf hfree
    | cons hd rest => exact ⟨hd, _, rfl⟩
  have hfull' : ∀ s ∈ a'.slots, slotFullFor p s := by
    intro s hs
    rw [alloc_slots t.leafs _ sid a' ha] at hs
    rcases List.mem_or_eq_of_mem_set hs with hold | hnew
    · exact hfull s hold
    · rw [hnew]
      intro hxp
      exact absurd hxp.symm hpX
  have hins : ∀ cid, insertNodeHelper a' (some p) sid FUEL cid = none :=
    fun cid => insertNodeHelper_full_none a' p sid hfull' FUEL cid
  exact upsert_edge_insert_fails t p X sid a' hXns ha hins hw hroot


/-! ### Child-list bookkeeping: every id referenced by some leaf (C4, C5, C10) -/

/-- The child ids stored in one slot (`[]` for an empty slot). -/
def childIds : Option Leaf → List SlotId
  | some leaf => leaf.get_nexts
  | none => []

/-- Every child id referenced by any slot, in slot order. -/
def allChildIds (slots : List (Option Leaf)) : List SlotId :=
  slots.foldr (fun s acc => childIds s ++ acc) []

/-- No slot id is referenced twice across all child lists — `upsert_edge`
maintains this: ids enter a list only from `alloc` (a fresh id) or from the
detach step (which removed the only reference). -/
def Arena.childNodup (a : Arena) : Prop := (allChildIds a.slots).Nodup

instance (a : Arena) : Decidable a.childNodup := by
  unfold Arena.childNodup; infer_instance

/-- The slot at `nid` does not hold the `Own` leaf (dead slots count as
not-`Own`). -/
def notOwnSlotB (a : Arena) (nid : SlotId) : Bool :=
  match a.get nid with
  | .ok (.own _) => false
  | _ => true

/-- The children referenced by one slot all avoid `Own` slots. -/
def slotChildrenNotOwn (a : Arena) : Option Leaf → Prop
  | some leaf => ∀ nid ∈ leaf.get_nexts, notOwnSlotB a nid = true
  | none => True

instance (a : Arena) : (s : Option Leaf) → Decidable (slotChildrenNotOwn a s)
  | some leaf => by unfold slotChildrenNotOwn; infer_instance
  | none => by unfold slotChildrenNotOwn; infer_instance

/-- No child list of the arena points at the `Own` root — the invariant
behind `next_hop` never answering `RootIsDestination` (child ids only ever
come from `alloc` of a `Foreign` leaf or from detaching a `Foreign` leaf). -/
def Arena.noOwnChild (a : Arena) : Prop := ∀ s ∈ a.slots, slotChildrenNotOwn a s

instance (a : Arena) : Decidable a.noOwnChild := by
  unfold Arena.noOwnChild; infer_instance

/-- The slot holds the `Own` leaf (used for the root of a well-formed tree). -/
def ownLeafB : Except ArenaError Leaf → Bool
  | .ok (.own _) => true
  | _ => false

/-- No leaf holding identity `p` has a child slot holding identity `X`:
`X`'s current parent, if any, is not `p`. -/
def slotChildAvoids (a : Arena) (p X : Node) : Option Leaf → Prop
  | some (.foreign nexts node) =>
      node = p → ∀ nid ∈ nexts, leafNode? (a.slots.getD nid none) ≠ some X
  | some (.own _) => True
  | none => True

instance (a : Arena) (p X : Node) : (s : Option Leaf) → Decidable (slotChildAvoids a p X s)
  | some (.foreign nexts node) => by unfold slotChildAvoids; infer_instance
  | some (.own nexts) => by unfold slotChildAvoids; infer_instance
  | none => by unfold slotChildAvoids; infer_instance

/-- `X` is not stored under any leaf whose identity is `p`. -/
def Arena.childAvoids (a : Arena) (p X : Node) : Prop :=
  ∀ s ∈ a.slots, slotChildAvoids a p X s

instance (a : Arena) (p X : Node) : Decidable (a.childAvoids p X) := by
  unfold Arena.childAvoids; infer_instance

theorem get_eq_ok_iff_getD (a : Arena) (id : SlotId) (l : Leaf) :
    a.get id = .ok l ↔ a.slots.getD id none = some l := by
  unfold Arena.get
  cases h : a.slots.getD id none with
  | none => simp
  | some leaf => simp

theorem get_lt_length (a : Arena) (id : SlotId) (l : Leaf) (h : a.get id = .ok l) :
    id < a.slots.length := by
  have h2 := get_eq_some_getElem a id l h
  rcases Nat.lt_or_ge id a.slots.length with hlt | hge
  · exact hlt
  · rw [List.getElem?_eq_none hge] at h2
    exact absurd h2 (by simp)

theorem get_nexts_set_nexts (l : Leaf) (ns : List SlotId) :
    (l.set_nexts ns).get_nexts = ns := by
  cases l <;> rfl

theorem arena_get_set_self (a : Arena) (c : SlotId) (v : Leaf) (hc : c < a.slots.length) :
    (a.set c v).get c = .ok v := by
  unfold Arena.set Arena.get
  rw [List.getD_eq_getElem?_getD, List.getElem?_set_eq_of_lt (some v) hc]
  rfl

theorem arena_get_set_ne (a : Arena) (c : SlotId) (v : Leaf) (id : SlotId) (h : c ≠ id) :
    (a.set c v).get id = a.get id := by
  unfold Arena.set Arena.get
  rw [List.getD_eq_getElem?_getD, List.getElem?_set_ne h, ← List.getD_eq_getElem?_getD]

theorem ownLeafB_isOk (e : Except ArenaError Leaf) (h : ownLeafB e = true) :
    e.isOk = true := by
  cases e with
  | error x => simp [ownLeafB] at h
  | ok l => rfl

theorem ownLeafB_ne_foreign (e : Except ArenaError Leaf) (h : ownLeafB e = true)
    (ns : List SlotId) (nd : Node) : e ≠ .ok (.foreign ns nd) := by
  intro he
  rw [he] at h
  simp [ownLeafB] at h

theorem mem_allChildIds (slots : List (Option Leaf)) (s : Option Leaf) (hs : s ∈ slots)
    (id : SlotId) (hid : id ∈ childIds s) : id ∈ allChildIds slots := by
  induction slots with
  | nil => cases hs
  | cons z tl ih =>
    rcases List.mem_cons.mp hs with hz | htl
    · subst hz
      exact List.mem_append.mpr (Or.inl hid)
    · exact List.mem_append.mpr (Or.inr (ih htl))

theorem count_allChildIds_set (slots : List (Option Leaf)) :
    ∀ (c : Nat), c < slots.length → ∀ (v : Option Leaf) (id : SlotId),
      (allChildIds (slots.set c v)).count id + (childIds (slots.getD c none)).count id
        = (allChildIds slots).count id + (childIds v).count id := by
  induction slots with
  | nil => intro c hc; simp at hc
  | cons z tl ih =>
    intro c hc v id
    cases c with
    | zero =>
      simp only [List.set_cons_zero, List.getD_cons_zero]
      show ((childIds v ++ allChildIds tl).count id) + (childIds z).count id
        = ((childIds z ++ allChildIds tl).count id) + (childIds v).count id
      simp only [List.count_append]
      omega
    | succ c =>
      simp only [List.set_cons_succ, List.getD_cons_succ]
      show ((childIds z ++ allChildIds (tl.set c v)).count id) + (childIds (tl.getD c none)).count id
        = ((childIds z ++ allChildIds tl).count id) + (childIds v).count id
      simp only [List.count_append]
      have := ih c (by simpa using hc) v id
      omega

theorem count_eraseIdx_getD (l : List SlotId) :
    ∀ (pos : Nat), pos < l.length → ∀ (x : SlotId), l.getD pos 0 = x →
      ((l.eraseIdx pos).count x) + 1 = l.count x := by
  induction l with
  | nil => intro pos hpos; simp at hpos
  | cons y tl ih =>
    intro pos hpos x hx
    cases pos with
    | zero =>
      rw [List.getD_cons_zero] at hx
      subst hx
      simp [List.eraseIdx_cons_zero, List.count_cons_self]
    | succ pos =>
      rw [List.getD_cons_succ] at hx
      rw [List.eraseIdx_cons_succ]
      have := ih pos (by simpa using hpos) x hx
      by_cases hxy : x = y
      · subst hxy
        simp only [List.count_cons_self]
        omega
      · rw [List.count_cons_of_ne hxy, List.count_cons_of_ne hxy]
        exact this

theorem two_le_count_filterMap {α β : Type} [DecidableEq β] (f : α → Option β) (X : β) :
    ∀ (l : List α) (i j : Nat), i ≠ j → ∀ x y, l[i]? = some x → l[j]? = some y →
      f x = some X → f y = some X → 2 ≤ (l.filterMap f).count X := by
  intro l
  induction l with
  | nil => intro i j _ x y hi; simp at hi
  | cons z tl ih =>
    intro i j hij x y hi hj hfx hfy
    cases i with
    | zero =>
      cases j with
      | zero => exact absurd rfl hij
      | succ j =>
        rw [List.getElem?_cons_zero, Option.some.injEq] at hi
        subst hi
        rw [List.filterMap_cons_some hfx, List.count_cons_self]
        have hy : y ∈ tl := List.getElem?_mem (by simpa using hj)
        have hX : X ∈ tl.filterMap f := List.mem_filterMap.mpr ⟨y, hy, hfy⟩
        have := List.count_pos_iff.mpr hX
        omega
    | succ i =>
      cases j with
      | zero =>
        rw [List.getElem?_cons_zero, Option.some.injEq] at hj
        subst hj
        rw [List.filterMap_cons_some hfy, List.count_cons_self]
        have hx : x ∈ tl := List.getElem?_mem (by simpa using hi)
        have hX : X ∈ tl.filterMap f := List.mem_filterMap.mpr ⟨x, hx, hfx⟩
        have := List.count_pos_iff.mpr hX
        omega
      | succ j =>
        have h2 := ih i j (fun h => hij (by rw [h])) x y (by simpa using hi)
          (by simpa using hj) hfx hfy
        cases hfz : f z with
        | none => rwa [List.filterMap_cons_none hfz]
        | some w =>
          rw [List.filterMap_cons_some hfz]
          by_cases hwX : X = w
          · subst hwX
            rw [List.count_cons_self]
            omega
          · rw [List.count_cons_of_ne hwX]
            exact h2

theorem holder_eq_of_count_le_one (a : Arena) (X : Node)
    (hcount : a.storedNodes.count X ≤ 1) (i j : SlotId) (ni nj : List SlotId)
    (hi : a.get i = .ok (.foreign ni X)) (hj : a.get j = .ok (.foreign nj X)) : i = j := by
  by_contra hij
  have h2 := two_le_count_filterMap leafNode? X a.slots i j hij _ _
    (get_eq_some_getElem a i _ hi) (get_eq_some_getElem a j _ hj) rfl rfl
  unfold Arena.storedNodes at hcount
  omega

/-! ### Exact shape of a successful detach and insert (C5, C10) -/

theorem removeScan_spec (a : Arena) (X : Node) :
    ∀ (l : List SlotId) (i j : Nat), removeScan a X l i = some j →
      i ≤ j ∧ j - i < l.length ∧ ∃ ns, a.get (l.getD (j - i) 0) = .ok (.foreign ns X) := by
  intro l
  induction l with
  | nil => intro i j h; simp [removeScan] at h
  | cons nid rest ih =>
    intro i j h
    simp only [removeScan] at h
    split at h
    · obtain ⟨h1, h2, ns, h3⟩ := ih (i + 1) j h
      refine ⟨by omega, by simp only [List.length_cons]; omega, ns, ?_⟩
      have hji : j - i = (j - (i + 1)) + 1 := by omega
      rw [hji, List.getD_cons_succ]
      exact h3
    · obtain ⟨h1, h2, ns, h3⟩ := ih (i + 1) j h
      refine ⟨by omega, by simp only [List.length_cons]; omega, ns, ?_⟩
      have hji : j - i = (j - (i + 1)) + 1 := by omega
      rw [hji, List.getD_cons_succ]
      exact h3
    · next ns0 node hg =>
      split at h
      · next heq =>
        simp only [Option.some.injEq] at h
        subst h
        refine ⟨Nat.le_refl i, by simp, ns0, ?_⟩
        simp only [Nat.sub_self, List.getD_cons_zero]
        rw [heq] at hg
        exact hg
      · obtain ⟨h1, h2, ns, h3⟩ := ih (i + 1) j h
        refine ⟨by omega, by simp only [List.length_cons]; omega, ns, ?_⟩
        have hji : j - i = (j - (i + 1)) + 1 := by omega
        rw [hji, List.getD_cons_succ]
        exact h3

theorem removeNodeHelper_some_spec (a : Arena) (X : Node) :
    ∀ (fuel : Nat) (cid lid : SlotId) (ar : Arena),
      removeNodeHelper a X fuel cid = some (lid, ar) →
      (∃ ns, a.get lid = .ok (.foreign ns X)) ∧
      ∃ c current pos, a.get c = .ok current ∧ pos < current.get_nexts.length ∧
        current.get_nexts.getD pos 0 = lid ∧
        ar = a.set c (current.set_nexts (current.get_nexts.eraseIdx pos)) := by
  intro fuel
  induction fuel with
  | zero => intro cid lid ar h; simp [removeNodeHelper] at h
  | succ fuel ih =>
    intro cid lid ar h
    simp only [removeNodeHelper] at h
    split at h
    · simp at h
    · next current hg =>
      split at h
      · next pos hscan =>
        simp only [Option.some.injEq, Prod.mk.injEq] at h
        obtain ⟨h1, h2⟩ := h
        obtain ⟨-, hlt, ns, hfx⟩ := removeScan_spec a X current.get_nexts 0 pos hscan
        simp only [Nat.sub_zero] at hlt hfx
        rw [h1] at hfx
        exact ⟨⟨ns, hfx⟩, cid, current, pos, hg, hlt, h1, h2.symm⟩
      · obtain ⟨nid, hmem, hrec⟩ := List.exists_of_findSome?_eq_some h
        exact ih nid lid ar hrec

theorem insertNodeHelper_some_spec (a : Arena) (pn : Option Node) (lid : SlotId) :
    ∀ (fuel : Nat) (cid : SlotId) (a2 : Arena), insertNodeHelper a pn lid fuel cid = some a2 →
      ∃ c cur, a.get c = .ok cur ∧ cur.get_node = pn ∧
        a2 = a.set c (cur.set_nexts (cur.get_nexts ++ [lid])) := by
  intro fuel
  induction fuel with
  | zero => intro cid a2 h; simp [insertNodeHelper] at h
  | succ fuel ih =>
    intro cid a2 h
    simp only [insertNodeHelper] at h
    split at h
    · simp at h
    · next current hg =>
      split at h
      · next hnode =>
        split at h
        · simp only [Option.some.injEq] at h
          exact ⟨cid, current, hg, hnode, h.symm⟩
        · simp at h
      · obtain ⟨nid, hmem, hrec⟩ := List.exists_of_findSome?_eq_some h
        exact ih nid a2 hrec

/-! ### `next_hop` cannot reach an unreferenced leaf, nor answer
`RootIsDestination` when no child list names an `Own` slot (C4, C5, C10) -/

theorem nextHopHelper_unreachable (a : Arena) (X : Node)
    (hh : ∀ cid ns, a.get cid = .ok (.foreign ns X) →
      ∀ cid2 leaf, a.get cid2 = .ok leaf → cid ∉ leaf.get_nexts) :
    ∀ (fuel : Nat) (cid : SlotId), (∀ ns, a.get cid ≠ .ok (.foreign ns X)) →
      ¬ ((nextHopHelper a X fuel cid).isOk = true) := by
  intro fuel
  induction fuel with
  | zero => intro cid _ h; simp [nextHopHelper] at h
  | succ fuel ih =>
    intro cid hnh h
    cases hg : a.get cid with
    | error e =>
      rw [nextHopHelper_get_error a X fuel cid e hg] at h
      simp at h
    | ok current =>
      have hkids : ∀ nid ∈ current.get_nexts, ∀ ns, a.get nid ≠ .ok (.foreign ns X) := by
        intro nid hmem ns hnid
        exact hh nid ns hnid cid current hg hmem
      have hfind : current.get_nexts.find? (fun nid => (nextHopHelper a X fuel nid).isOk)
          = none :=
        List.find?_eq_none.mpr fun nid hmem hb => ih nid (hkids nid hmem) (by simpa using hb)
      cases current with
      | foreign nexts node =>
        have hnX : node ≠ X := fun he => hnh nexts (he ▸ hg)
        rw [nextHopHelper_foreign_ne a X fuel cid nexts node hg hnX] at h
        simp only [Leaf.get_nexts] at hfind
        rw [hfind] at h
        simp at h
      | own nexts =>
        rw [nextHopHelper_own a X fuel cid nexts hg] at h
        simp only [Leaf.get_nexts] at hfind
        rw [hfind] at h
        simp at h

theorem descend_ne_rootIsDest (a : Arena) (dest : Node) (fuel : Nat) (nexts : List SlotId)
    (hkids : ∀ nid ∈ nexts, notOwnSlotB a nid = true) :
    (match nexts.find? (fun nid => (nextHopHelper a dest fuel nid).isOk) with
     | some retId =>
       (match a.get retId with
        | .error e => .error (.leafNotFoundError e)
        | .ok ret =>
          match ret.get_node with
          | some n => .ok n
          | none => .error .rootIsDestinationError)
     | none => .error .nodeNotFoundError) ≠ Except.error TreeError.rootIsDestinationError := by
  cases hf : nexts.find? (fun nid => (nextHopHelper a dest fuel nid).isOk) with
  | none => simp
  | some retId =>
    have hno := hkids retId (List.mem_of_find?_eq_some hf)
    cases hg : a.get retId with
    | error e => simp [hg]
    | ok ret =>
      cases ret with
      | foreign ns nd => simp [hg, Leaf.get_node]
      | own ns =>
        simp only [notOwnSlotB, hg] at hno
        exact absurd hno (by decide)

theorem nextHopHelper_ne_rootIsDest (a : Arena) (dest : Node) (hno : a.noOwnChild) :
    ∀ (fuel : Nat) (cid : SlotId),
      nextHopHelper a dest fuel cid ≠ .error .rootIsDestinationError := by
  intro fuel cid
  cases fuel with
  | zero => simp [nextHopHelper]
  | succ fuel =>
    cases hg : a.get cid with
    | error e =>
      rw [nextHopHelper_get_error a dest fuel cid e hg]
      simp
    | ok current =>
      have hkids : ∀ nid ∈ current.get_nexts, notOwnSlotB a nid = true := by
        have hmem : (some current) ∈ a.slots :=
          List.getElem?_mem (get_eq_some_getElem a cid current hg)
        have := hno (some current) hmem
        simpa [slotChildrenNotOwn] using this
      cases current with
      | foreign nexts node =>
        by_cases hx : node = dest
        · rw [nextHopHelper_hit a dest fuel cid nexts (hx ▸ hg)]
          simp
        · rw [nextHopHelper_foreign_ne a dest fuel cid nexts node hg hx]
          simp only [Leaf.get_nexts] at hkids
          exact descend_ne_rootIsDest a dest fuel nexts hkids
      | own nexts =>
        rw [nextHopHelper_own a dest fuel cid nexts hg]
        simp only [Leaf.get_nexts] at hkids
        exact descend_ne_rootIsDest a dest fuel nexts hkids

/-! ### `upsert_edge` preserves the no-`Own`-child invariant (C4) -/

theorem notOwnSlotB_set_nexts (a : Arena) (c : SlotId) (cur : Leaf) (L : List SlotId)
    (hgc : a.get c = .ok cur) :
    ∀ nid, notOwnSlotB (a.set c (cur.set_nexts L)) nid = notOwnSlotB a nid := by
  intro nid
  by_cases h : nid = c
  · subst h
    unfold notOwnSlotB
    rw [arena_get_set_self a nid _ (get_lt_length a nid cur hgc), hgc]
    cases cur <;> rfl
  · unfold notOwnSlotB
    rw [arena_get_set_ne a c _ nid (fun he => h he.symm)]

theorem noOwnChild_set (a : Arena) (c : SlotId) (cur : Leaf) (L : List SlotId)
    (hgc : a.get c = .ok cur) (hno : a.noOwnChild)
    (hL : ∀ nid ∈ L, notOwnSlotB a nid = true) :
    (a.set c (cur.set_nexts L)).noOwnChild := by
  have hpt := notOwnSlotB_set_nexts a c cur L hgc
  intro s hs
  have hs2 : s ∈ a.slots.set c (some (cur.set_nexts L)) := hs
  rcases List.mem_or_eq_of_mem_set hs2 with hold | hnew
  · have hsl := hno s hold
    cases s with
    | none => trivial
    | some leaf =>
      simp only [slotChildrenNotOwn] at hsl ⊢
      intro nid hm
      rw [hpt nid]
      exact hsl nid hm
  · subst hnew
    simp only [slotChildrenNotOwn]
    intro nid hm
    rw [get_nexts_set_nexts] at hm
    rw [hpt nid]
    exact hL nid hm

theorem notOwnSlotB_write_foreign (a b : Arena) (sid : SlotId) (ns : List SlotId) (nd : Node)
    (hb : b.slots = a.slots.set sid (some (.foreign ns nd))) :
    ∀ nid, notOwnSlotB a nid = true → notOwnSlotB b nid = true := by
  intro nid h
  unfold notOwnSlotB Arena.get at h ⊢
  rw [hb, List.getD_eq_getElem?_getD]
  by_cases hns : nid = sid
  · subst hns
    rcases Nat.lt_or_ge nid a.slots.length with hlt | hge
    · rw [List.getElem?_set_eq_of_lt _ hlt]
      rfl
    · rw [List.getElem?_eq_none (by simpa using hge)]
      rfl
  · rw [List.getElem?_set_ne (fun he => hns he.symm), ← List.getD_eq_getElem?_getD]
    exact h

theorem notOwnSlotB_write_foreign_self (a b : Arena) (sid : SlotId) (ns : List SlotId)
    (nd : Node) (hb : b.slots = a.slots.set sid (some (.foreign ns nd))) :
    notOwnSlotB b sid = true := by
  unfold notOwnSlotB Arena.get
  rw [hb, List.getD_eq_getElem?_getD]
  rcases Nat.lt_or_ge sid a.slots.length with hlt | hge
  · rw [List.getElem?_set_eq_of_lt _ hlt]
    rfl
  · rw [List.getElem?_eq_none (by simpa using hge)]
    rfl

theorem noOwnChild_write_foreign (a b : Arena) (sid : SlotId) (nd : Node)
    (hb : b.slots = a.slots.set sid (some (.foreign [] nd)))
    (hno : a.noOwnChild) : b.noOwnChild := by
  intro s hs
  rw [hb] at hs
  rcases List.mem_or_eq_of_mem_set hs with hold | hnew
  · have hsl := hno s hold
    cases s with
    | none => trivial
    | some leaf =>
      simp only [slotChildrenNotOwn] at hsl ⊢
      intro nid hm
      exact notOwnSlotB_write_foreign a b sid [] nd hb nid (hsl nid hm)
  · subst hnew
    simp only [slotChildrenNotOwn, Leaf.get_nexts]
    intro nid hm
    simp at hm

theorem upsert_edge_noOwnChild (t : Tree) (fromN : Option Node) (toN : Node)
    (hno : t.leafs.noOwnChild) : (t.upsert_edge fromN toN).2.leafs.noOwnChild := by
  cases hr : removeNodeHelper t.leafs toN FUEL t.root_id with
  | some r =>
    obtain ⟨lid, ar⟩ := r
    obtain ⟨⟨nsX, hlidX⟩, c, cur, pos, hgc, hpos, hlid, har⟩ :=
      removeNodeHelper_some_spec t.leafs toN FUEL t.root_id lid ar hr
    have hmemc : (some cur) ∈ t.leafs.slots :=
      List.getElem?_mem (get_eq_some_getElem t.leafs c cur hgc)
    have hcur := hno (some cur) hmemc
    simp only [slotChildrenNotOwn] at hcur
    have har_no : ar.noOwnChild := by
      rw [har]
      exact noOwnChild_set t.leafs c cur _ hgc hno
        (fun nid hm => hcur nid (List.mem_of_mem_eraseIdx hm))
    have hlid_ar : notOwnSlotB ar lid = true := by
      rw [har]
      by_cases hlc : lid = c
      · subst hlc
        unfold notOwnSlotB
        rw [arena_get_set_self t.leafs lid _ (get_lt_length t.leafs lid cur hgc)]
        have hcv : cur = .foreign nsX toN := by
          rw [hgc] at hlidX
          exact Except.ok.inj hlidX
        rw [hcv]
        rfl
      · unfold notOwnSlotB
        rw [arena_get_set_ne t.leafs c _ lid (fun he => hlc he.symm), hlidX]
    cases hi : insertNodeHelper ar fromN lid FUEL t.root_id with
    | none =>
      have heq : t.upsert_edge fromN toN = (.error .nodeNotFoundError, ⟨ar, t.root_id⟩) := by
        simp only [Tree.upsert_edge, Tree.insertStep, hr, hi]
      rw [heq]
      exact har_no
    | some a2 =>
      have heq : t.upsert_edge fromN toN = (.ok (), ⟨a2, t.root_id⟩) := by
        simp only [Tree.upsert_edge, Tree.insertStep, hr, hi]
      rw [heq]
      obtain ⟨c2, cur2, hg2, hnode2, ha2⟩ :=
        insertNodeHelper_some_spec ar fromN lid FUEL t.root_id a2 hi
      have hmem2 : (some cur2) ∈ ar.slots :=
        List.getElem?_mem (get_eq_some_getElem ar c2 cur2 hg2)
      have hcur2 := har_no (some cur2) hmem2
      simp only [slotChildrenNotOwn] at hcur2
      show a2.noOwnChild
      rw [ha2]
      apply noOwnChild_set ar c2 cur2 _ hg2 har_no
      intro nid hm
      rcases List.mem_append.mp hm with hold | hnew
      · exact hcur2 nid hold
      · rw [List.mem_singleton.mp hnew]
        exact hlid_ar
  | none =>
    cases ha : t.leafs.alloc (.foreign [] toN) with
    | none =>
      have heq : t.upsert_edge fromN toN = (.error .leafAllocationError, t) := by
        simp only [Tree.upsert_edge, hr, ha]
      rw [heq]
      exact hno
    | some r =>
      obtain ⟨sid, ar⟩ := r
      have har : ar.slots = t.leafs.slots.set sid (some (.foreign [] toN)) :=
        alloc_slots t.leafs _ sid ar ha
      have har_no : ar.noOwnChild := noOwnChild_write_foreign t.leafs ar sid toN har hno
      have hlid_ar : notOwnSlotB ar sid = true :=
        notOwnSlotB_write_foreign_self t.leafs ar sid [] toN har
      cases hi : insertNodeHelper ar fromN sid FUEL t.root_id with
      | none =>
        have heq : t.upsert_edge fromN toN = (.error .nodeNotFoundError, ⟨ar, t.root_id⟩) := by
          simp only [Tree.upsert_edge, Tree.insertStep, hr, ha, hi]
        rw [heq]
        exact har_no
      | some a2 =>
        have heq : t.upsert_edge fromN toN = (.ok (), ⟨a2, t.root_id⟩) := by
          simp only [Tree.upsert_edge, Tree.insertStep, hr, ha, hi]
        rw [heq]
        obtain ⟨c2, cur2, hg2, hnode2, ha2⟩ :=
          insertNodeHelper_some_spec ar fromN sid FUEL t.root_id a2 hi
        have hmem2 : (some cur2) ∈ ar.slots :=
          List.getElem?_mem (get_eq_some_getElem ar c2 cur2 hg2)
        have hcur2 := har_no (some cur2) hmem2
        simp only [slotChildrenNotOwn] at hcur2
        show a2.noOwnChild
        rw [ha2]
        apply noOwnChild_set ar c2 cur2 _ hg2 har_no
        intro nid hm
        rcases List.mem_append.mp hm with hold | hnew
        · exact hcur2 nid hold
        · rw [List.mem_singleton.mp hnew]
          exact hlid_ar

/-! ### A failed re-attach leaves the detached child unreachable (C5, C10) -/

theorem upsert_edge_detach_insert_fails (t : Tree) (p X : Node) (lid : SlotId) (ar : Arena)
    (hrem : removeNodeHelper t.leafs X FUEL t.root_id = some (lid, ar))
    (hins : insertNodeHelper ar (some p) lid FUEL t.root_id = none)
    (hcount : t.leafs.storedNodes.count X ≤ 1)
    (hnd : t.leafs.childNodup)
    (hroot : ownLeafB (t.leafs.get t.root_id) = true) :
    (t.upsert_edge (some p) X).1 = .error .nodeNotFoundError ∧
    ¬ (((t.upsert_edge (some p) X).2.next_hop X).isOk = true) := by
  have htree : t.upsert_edge (some p) X = (.error .nodeNotFoundError, ⟨ar, t.root_id⟩) := by
    simp only [Tree.upsert_edge, Tree.insertStep, hrem, hins]
  obtain ⟨⟨nsX, hlidX⟩, c, cur, pos, hgc, hpos, hlid, har⟩ :=
    removeNodeHelper_some_spec t.leafs X FUEL t.root_id lid ar hrem
  have hc : c < t.leafs.slots.length := get_lt_length t.leafs c cur hgc
  have hgetD : t.leafs.slots.getD c none = some cur := (get_eq_ok_iff_getD t.leafs c cur).mp hgc
  have hcnt1 : (allChildIds t.leafs.slots).count lid ≤ 1 :=
    List.nodup_iff_count_le_one.mp hnd lid
  have herase := count_eraseIdx_getD cur.get_nexts pos hpos lid hlid
  have hset := count_allChildIds_set t.leafs.slots c hc
    (some (cur.set_nexts (cur.get_nexts.eraseIdx pos))) lid
  rw [hgetD] at hset
  simp only [childIds, get_nexts_set_nexts] at hset
  have hzero : (allChildIds ar.slots).count lid = 0 := by
    have hsl : ar.slots
        = t.leafs.slots.set c (some (cur.set_nexts (cur.get_nexts.eraseIdx pos))) := by
      rw [har]
      rfl
    rw [hsl]
    omega
  have hunref : ∀ cid2 leaf, ar.get cid2 = .ok leaf → lid ∉ leaf.get_nexts := by
    intro cid2 leaf hgl hmem
    have hmem2 : (some leaf) ∈ ar.slots :=
      List.getElem?_mem (get_eq_some_getElem ar cid2 leaf hgl)
    have hin : lid ∈ allChildIds ar.slots := mem_allChildIds ar.slots (some leaf) hmem2 lid hmem
    exact (List.count_eq_zero.mp hzero) hin
  have hforward : ∀ cid2 ns2, ar.get cid2 = .ok (.foreign ns2 X) →
      ∃ ns3, t.leafs.get cid2 = .ok (.foreign ns3 X) := by
    intro cid2 ns2 hgf
    by_cases hcc : cid2 = c
    · subst hcc
      have hself : ar.get cid2 = .ok (cur.set_nexts (cur.get_nexts.eraseIdx pos)) := by
        rw [har]
        exact arena_get_set_self t.leafs cid2 _ hc
      rw [hself] at hgf
      have hv := Except.ok.inj hgf
      cases hcv : cur with
      | own ns0 =>
        rw [hcv] at hv
        simp [Leaf.set_nexts] at hv
      | foreign ns0 nd0 =>
        rw [hcv] at hv
        simp only [Leaf.set_nexts, Leaf.foreign.injEq] at hv
        obtain ⟨-, hnd0⟩ := hv
        refine ⟨ns0, ?_⟩
        rw [hcv, hnd0] at hgc
        exact hgc
    · have hfr : ar.get cid2 = t.leafs.get cid2 := by
        rw [har]
        exact arena_get_set_ne t.leafs c _ cid2 (fun he => hcc he.symm)
      exact ⟨ns2, by rw [← hfr]; exact hgf⟩
  have hholder : ∀ cid2 ns2, ar.get cid2 = .ok (.foreign ns2 X) → cid2 = lid := by
    intro cid2 ns2 hgf
    obtain ⟨ns3, hfa⟩ := hforward cid2 ns2 hgf
    exact holder_eq_of_count_le_one t.leafs X hcount cid2 lid ns3 nsX hfa hlidX
  refine ⟨by rw [htree], ?_⟩
  rw [htree]
  intro hok
  have hrootne : ∀ ns2, ar.get t.root_id ≠ .ok (.foreign ns2 X) := by
    intro ns2 hgf
    obtain ⟨ns3, hfa⟩ := hforward t.root_id ns2 hgf
    exact ownLeafB_ne_foreign _ hroot ns3 X hfa
  unfold Tree.next_hop at hok
  exact nextHopHelper_unreachable ar X
    (fun cid2 ns2 hgf cid3 leaf hgl => by
      rw [hholder cid2 ns2 hgf]
      exact hunref cid3 leaf hgl)
    FUEL t.root_id hrootne hok

/-! ### The concrete trees used by the counterexamples and witnesses -/

/-- A 32-leaf chain: the root plus 31 `Foreign` leaves, each the only child
of the previous one, exhausting the arena (`free = []`). -/
def c5Chain : Tree :=
  (List.range 31).foldl
    (fun t i =>
      (t.upsert_edge (if i = 0 then none else some ⟨[0, 0, 0, 0, 0, i]⟩)
        ⟨[0, 0, 0, 0, 0, i + 1]⟩).2)
    freshT

/-- A tree whose single root child (node `100`, slot 30) holds
`MAX_CHILD_LEAFS` children (nodes `1`‥`8`, slots 29‥22). -/
def c10Full : Tree :=
  (List.range 8).foldl
    (fun t i => (t.upsert_edge (some ⟨[0, 0, 0, 0, 0, 100]⟩) ⟨[0, 0, 0, 0, 0, i + 1]⟩).2)
    (freshT.upsert_edge none ⟨[0, 0, 0, 0, 0, 100]⟩).2

/-- A fresh tree after the topology exchange has stored one identity (the
state a follower's own identity is in after `send_initial_topology`'s
`UpsertEdge` is applied). -/
def c4OwnStored : Tree := (freshT.upsert_edge none ⟨[10, 10, 10, 10, 10, 10]⟩).2

/-- A fresh tree with a single stored node, child of the root. -/
def c5Stored : Tree := (freshT.upsert_edge none ⟨[0, 0, 0, 0, 0, 1]⟩).2

/-- `c10Full` extended with a second root child (node `60`) holding the
child `50`: the full parent `100` and a child stored under a different
parent. -/
def c10Stored : Tree :=
  ((c10Full.upsert_edge none ⟨[0, 0, 0, 0, 0, 60]⟩).2.upsert_edge
    (some ⟨[0, 0, 0, 0, 0, 60]⟩) ⟨[0, 0, 0, 0, 0, 50]⟩).2

/-! ### C4 -/

/-- C4 (counterexample): sending to one's own identity does not return
`RootIsDestination`. On a fresh tree (the initial state, own identity not
stored) it returns `NodeNotFound`; and once the topology exchange has
stored the own identity as a root child (`c4OwnStored`), sending to it
even succeeds. -/
theorem c4_counterexample :
    Mesh.send freshT [1, 2, 3] ⟨[1, 2, 3, 4, 5, 6]⟩ =
      .error (.treeError .nodeNotFoundError) ∧
    MeshError.treeError TreeError.nodeNotFoundError ≠
      MeshError.treeError TreeError.rootIsDestinationError ∧
    (Mesh.send c4OwnStored [1] ⟨[10, 10, 10, 10, 10, 10]⟩).isOk = true := by
  exact ⟨by decide, by decide, by decide⟩

/-- C4 (amended): `send` never returns `RootIsDestination`: in any tree
whose child lists reference no `Own` slot — an invariant that holds in
`Tree::new`'s tree and is preserved by every `upsert_edge` call, as the
last two conjuncts prove — the error cannot arise; while the destination
(in particular the own identity, before the topology exchange re-adds it)
is not stored as a leaf, `send` returns `NodeNotFound` wrapped in
`TreeError`. -/
theorem c4_send_to_self_amended (t : Tree) (data : List Nat) (own : Node) :
    (t.leafs.noOwnChild →
      Mesh.send t data own ≠ .error (.treeError .rootIsDestinationError)) ∧
    ((t.leafs.get t.root_id).isOk = true → ¬ t.leafs.stores own →
      Mesh.send t data own = .error (.treeError .nodeNotFoundError)) ∧
    (∀ t0, Tree.new = .ok t0 → t0.leafs.noOwnChild) ∧
    (∀ (fromN : Option Node) (toN : Node), t.leafs.noOwnChild →
      (t.upsert_edge fromN toN).2.leafs.noOwnChild) := by
  refine ⟨?_, ?_, ?_, ?_⟩
  · intro hno habs
    simp only [Mesh.send, Mesh.send_content] at habs
    cases hnh : t.next_hop own with
    | error e =>
      simp only [hnh] at habs
      simp only [Except.error.injEq, MeshError.treeError.injEq] at habs
      subst habs
      exact nextHopHelper_ne_rootIsDest t.leafs own hno FUEL t.root_id hnh
    | ok next =>
      simp only [hnh] at habs
      cases hs : SendMessage.serialize ⟨MessageContent.application data, own, none⟩ with
      | error e => simp only [hs] at habs; simp at habs
      | ok bytes => simp only [hs] at habs; simp at habs
  · intro hroot hns
    obtain ⟨current, hg⟩ : ∃ cu, t.leafs.get t.root_id = .ok cu := by
      cases hx : t.leafs.get t.root_id with
      | error e => rw [hx] at hroot; simp at hroot
      | ok cu => exact ⟨cu, rfl⟩
    have hnh : t.next_hop own = .error .nodeNotFoundError :=
      nextHopHelper_not_stored t.leafs own hns 31 t.root_id current hg
    simp only [Mesh.send, Mesh.send_content, hnh]
  · intro t0 ht
    rw [tree_new_eq] at ht
    injection ht with h
    rw [← h]
    decide
  · exact fun fromN toN hno => upsert_edge_noOwnChild t fromN toN hno

theorem c4_send_to_self_amended_witness :
    Mesh.send freshT [9] ⟨[0, 0, 0, 0, 0, 7]⟩
      ≠ .error (.treeError .rootIsDestinationError) ∧
    Mesh.send freshT [9] ⟨[0, 0, 0, 0, 0, 7]⟩ = .error (.treeError .nodeNotFoundError) ∧
    (freshT.upsert_edge none ⟨[0, 0, 0, 0, 0, 7]⟩).2.leafs.noOwnChild :=
  ⟨(c4_send_to_self_amended freshT [9] ⟨[0, 0, 0, 0, 0, 7]⟩).1 (by decide),
   (c4_send_to_self_amended freshT [9] ⟨[0, 0, 0, 0, 0, 7]⟩).2.1 (by decide) (by decide),
   (c4_send_to_self_amended freshT [9] ⟨[0, 0, 0, 0, 0, 7]⟩).2.2.2 none
     ⟨[0, 0, 0, 0, 0, 7]⟩ (by decide)⟩

/-! ### C5 -/

/-- C5 (counterexample): with the arena exhausted, `upsert_edge(Some p, X)`
for an unknown parent `p` and a fresh child `X` fails already in step 1
with `LeafAllocation`, not the `NodeNotFound` the claim states for every
tree. -/
theorem c5_counterexample :
    c5Chain.leafs.free = [] ∧
    ¬ c5Chain.leafs.stores ⟨[9, 9, 9, 9, 9, 9]⟩ ∧
    ¬ c5Chain.leafs.stores ⟨[8, 8, 8, 8, 8, 8]⟩ ∧
    (c5Chain.upsert_edge (some ⟨[9, 9, 9, 9, 9, 9]⟩) ⟨[8, 8, 8, 8, 8, 8]⟩).1 =
      .error .leafAllocationError ∧
    TreeError.leafAllocationError ≠ TreeError.nodeNotFoundError := by
  set_option maxRecDepth 8000 in
  exact ⟨by decide, by decide, by decide, by decide, by decide⟩

/-- C5 (amended): `upsert_edge(Some p, X)` with `p` unknown returns
`NodeNotFound` and leaves `X` unreachable from the root (`next_hop X`
fails on the resulting tree) whenever step 1 can do its work: either `X`
is already stored and the detach step finds it (the tree being
duplicate-free with an `Own` root), or `X` is fresh and the arena has a
free slot to allocate it. Only a fresh `X` in a full arena escapes to
`LeafAllocation` instead (the counterexample). -/
theorem c5_unknown_parent_amended (t : Tree) (p X : Node)
    (hpX : p ≠ X) (hpns : ¬ t.leafs.stores p)
    (hcount : t.leafs.storedNodes.count X ≤ 1)
    (hnd : t.leafs.childNodup)
    (hroot : ownLeafB (t.leafs.get t.root_id) = true)
    (hw : t.leafs.WfLive)
    (hstep1 : (removeNodeHelper t.leafs X FUEL t.root_id).isSome = true ∨
      (¬ t.leafs.stores X ∧ t.leafs.free ≠ [])) :
    (t.upsert_edge (some p) X).1 = .error .nodeNotFoundError ∧
    ¬ (((t.upsert_edge (some p) X).2.next_hop X).isOk = true) := by
  rcases hstep1 with hrem | ⟨hXns, hfree⟩
  · obtain ⟨r, hsome⟩ := Option.isSome_iff_exists.mp hrem
    obtain ⟨lid, ar⟩ := r
    have hins : insertNodeHelper ar (some p) lid FUEL t.root_id = none := by
      cases hi : insertNodeHelper ar (some p) lid FUEL t.root_id with
      | none => rfl
      | some a2 =>
        exfalso
        have hst := insertNodeHelper_some_stores ar p lid FUEL t.root_id a2 hi
        have he := removeNodeHelper_storedNodes t.leafs X FUEL t.root_id lid ar hsome
        unfold Arena.stores at hst
        rw [he] at hst
        exact hpns hst
    exact upsert_edge_detach_insert_fails t p X lid ar hsome hins hcount hnd hroot
  · exact upsert_edge_unknown_parent t p X hpX hpns hXns hfree hw (ownLeafB_isOk _ hroot)

theorem c5_unknown_parent_amended_witness :
    (c5Stored.upsert_edge (some ⟨[0, 0, 0, 0, 0, 5]⟩) ⟨[0, 0, 0, 0, 0, 1]⟩).1 =
      .error .nodeNotFoundError ∧
    ¬ (((c5Stored.upsert_edge (some ⟨[0, 0, 0, 0, 0, 5]⟩) ⟨[0, 0, 0, 0, 0, 1]⟩).2.next_hop
        ⟨[0, 0, 0, 0, 0, 1]⟩).isOk = true) := by
  set_option maxRecDepth 4000 in
  exact c5_unknown_parent_amended c5Stored ⟨[0, 0, 0, 0, 0, 5]⟩ ⟨[0, 0, 0, 0, 0, 1]⟩
    (by decide) (by decide) (by decide) (by decide) (by decide) (by decide)
    (Or.inl (by decide))

/-! ### C9 -/

/-- C9: `BROADCAST_NODE` is never stored as a leaf: the fresh tree stores
no broadcast leaf; `upsert_edge` preserves that whenever its child argument
is not `BROADCAST_NODE`; and the `(from, to)` pair the mesh tasks derive
from an incoming `UpsertEdge` has `to ≠ BROADCAST_NODE` whenever neither
the explicit child nor the message's final source is the broadcast
identity. -/
theorem c9_broadcast_never_stored :
    (∀ t0, Tree.new = .ok t0 → ¬ t0.leafs.stores BROADCAST_NODE) ∧
    (∀ (t : Tree) (parent : Option Node) (child : Node),
      child ≠ BROADCAST_NODE → ¬ t.leafs.stores BROADCAST_NODE →
      ¬ (t.upsert_edge parent child).2.leafs.stores BROADCAST_NODE) ∧
    (∀ (n p : Option Node) (fs fd : Node), fs ≠ BROADCAST_NODE →
      n ≠ some BROADCAST_NODE → (interpretUpsertEdge n p fs fd).2 ≠ BROADCAST_NODE) := by
  refine ⟨?_, ?_, ?_⟩
  · intro t0 ht
    rw [tree_new_eq] at ht
    injection ht with h
    rw [← h]
    decide
  · intro t parent child hc hbc habs
    rcases upsert_edge_stores t parent child _ habs with h | h
    · exact hbc h
    · exact hc h.symm
  · intro n p fs fd hfs hn
    cases n with
    | none => simpa [interpretUpsertEdge] using hfs
    | some node =>
      intro he
      simp only [interpretUpsertEdge] at he
      exact hn (by rw [he])

theorem c9_broadcast_never_stored_witness :
    ¬ (freshT.upsert_edge none ⟨[0, 0, 0, 0, 0, 1]⟩).2.leafs.stores BROADCAST_NODE ∧
    (interpretUpsertEdge none none ⟨[0, 0, 0, 0, 0, 2]⟩ ⟨[0, 0, 0, 0, 0, 3]⟩).2 ≠
      BROADCAST_NODE :=
  ⟨c9_broadcast_never_stored.2.1 freshT none ⟨[0, 0, 0, 0, 0, 1]⟩ (by decide) (by decide),
   c9_broadcast_never_stored.2.2 none none ⟨[0, 0, 0, 0, 0, 2]⟩ ⟨[0, 0, 0, 0, 0, 3]⟩
     (by decide) (by decide)⟩

/-! ### C10 -/

/-- C10 (counterexample): when `to` is already one of the full parent's
`MAX_CHILD_LEAFS` children, step 1 detaches it first, so the re-insert
succeeds — `upsert_edge(Some p, to)` returns `Ok`, not the `NodeNotFound`
the claim states for every `to`. -/
theorem c10_counterexample :
    c10Full.leafs.get 30 =
      .ok (.foreign [29, 28, 27, 26, 25, 24, 23, 22] ⟨[0, 0, 0, 0, 0, 100]⟩) ∧
    ([29, 28, 27, 26, 25, 24, 23, 22] : List SlotId).length = MAX_CHILD_LEAFS ∧
    (c10Full.upsert_edge (some ⟨[0, 0, 0, 0, 0, 100]⟩) ⟨[0, 0, 0, 0, 0, 8]⟩).1 = .ok () ∧
    (Except.ok () : Except TreeError Unit) ≠ .error .nodeNotFoundError := by
  set_option maxRecDepth 8000 in
  exact ⟨by decide, by decide, by decide, by decide⟩

/-- C10 (amended): when every leaf holding the parent identity `p` already
has `MAX_CHILD_LEAFS` children, and the child `X` is either stored under a
parent other than `p` (in a duplicate-free tree with an `Own` root) or
fresh with a free slot available, `upsert_edge(Some p, X)` returns
`NodeNotFound` — not a capacity error — and `X`, detached from its old
parent or freshly allocated in step 1, is left out of the tree:
`next_hop X` fails on the resulting tree. The one exception, refuted in
the counterexample, is an `X` already among `p`'s own children: its
detach frees a slot in `p`'s list and the call succeeds. -/
theorem c10_full_parent_amended (t : Tree) (p X : Node)
    (hpX : p ≠ X) (_hstored : t.leafs.stores p)
    (hfull : ∀ s ∈ t.leafs.slots, slotFullFor p s)
    (havoid : t.leafs.childAvoids p X)
    (hcount : t.leafs.storedNodes.count X ≤ 1)
    (hnd : t.leafs.childNodup)
    (hroot : ownLeafB (t.leafs.get t.root_id) = true)
    (hw : t.leafs.WfLive)
    (hstep1 : (removeNodeHelper t.leafs X FUEL t.root_id).isSome = true ∨
      (¬ t.leafs.stores X ∧ t.leafs.free ≠ [])) :
    (t.upsert_edge (some p) X).1 = .error .nodeNotFoundError ∧
    ¬ (((t.upsert_edge (some p) X).2.next_hop X).isOk = true) := by
  rcases hstep1 with hrem | ⟨hXns, hfree⟩
  · obtain ⟨r, hsome⟩ := Option.isSome_iff_exists.mp hrem
    obtain ⟨lid, ar⟩ := r
    obtain ⟨⟨nsX, hlidX⟩, c, cur, pos, hgc, hpos, hlid, har⟩ :=
      removeNodeHelper_some_spec t.leafs X FUEL t.root_id lid ar hsome
    have hfull2 : ∀ s ∈ ar.slots, slotFullFor p s := by
      intro s hs
      have hs2 : s ∈ t.leafs.slots.set c
          (some (cur.set_nexts (cur.get_nexts.eraseIdx pos))) := by
        rw [har] at hs
        exact hs
      rcases List.mem_or_eq_of_mem_set hs2 with hold | hnew
      · exact hfull s hold
      · subst hnew
        cases hcv : cur with
        | own ns0 => trivial
        | foreign ns0 nd0 =>
          rw [hcv] at hgc hpos hlid
          intro hndp
          exfalso
          have hmemc : (some (Leaf.foreign ns0 nd0)) ∈ t.leafs.slots :=
            List.getElem?_mem (get_eq_some_getElem t.leafs c _ hgc)
          have hav := havoid _ hmemc
          simp only [slotChildAvoids] at hav
          have hlidmem : lid ∈ ns0 := by
            have hgd : ns0.getD pos 0 = lid := by simpa [Leaf.get_nexts] using hlid
            have hp : pos < ns0.length := by simpa [Leaf.get_nexts] using hpos
            rw [List.getD_eq_getElem?_getD, List.getElem?_eq_getElem hp] at hgd
            simp only [Option.getD_some] at hgd
            rw [← hgd]
            exact List.getElem_mem hp
          have hX : leafNode? (t.leafs.slots.getD lid none) = some X := by
            rw [(get_eq_ok_iff_getD t.leafs lid _).mp hlidX]
            rfl
          exact hav hndp lid hlidmem hX
    have hins : insertNodeHelper ar (some p) lid FUEL t.root_id = none :=
      insertNodeHelper_full_none ar p lid hfull2 FUEL t.root_id
    exact upsert_edge_detach_insert_fails t p X lid ar hsome hins hcount hnd hroot
  · obtain ⟨sid, a2, ha⟩ : ∃ sid a2, t.leafs.alloc (.foreign [] X) = some (sid, a2) := by
      unfold Arena.alloc
      cases hf : t.leafs.free with
      | nil => exact absurd hf hfree
      | cons hd rest => exact ⟨hd, _, rfl⟩
    have hfull2 : ∀ s ∈ a2.slots, slotFullFor p s := by
      intro s hs
      rw [alloc_slots t.leafs _ sid a2 ha] at hs
      rcases List.mem_or_eq_of_mem_set hs with hold | hnew
      · exact hfull s hold
      · rw [hnew]
        intro hxp
        exact absurd hxp.symm hpX
    have hins : ∀ cid, insertNodeHelper a2 (some p) sid FUEL cid = none :=
      fun cid => insertNodeHelper_full_none a2 p sid hfull2 FUEL cid
    exact upsert_edge_insert_fails t p X sid a2 hXns ha hins hw (ownLeafB_isOk _ hroot)

theorem c10_full_parent_amended_witness :
    (c10Stored.upsert_edge (some ⟨[0, 0, 0, 0, 0, 100]⟩) ⟨[0, 0, 0, 0, 0, 50]⟩).1 =
      .error .nodeNotFoundError ∧
    ¬ (((c10Stored.upsert_edge (some ⟨[0, 0, 0, 0, 0, 100]⟩) ⟨[0, 0, 0, 0, 0, 50]⟩).2.next_hop
        ⟨[0, 0, 0, 0, 0, 50]⟩).isOk = true) := by
  set_option maxRecDepth 8000 in
  exact c10_full_parent_amended c10Stored ⟨[0, 0, 0, 0, 0, 100]⟩ ⟨[0, 0, 0, 0, 0, 50]⟩
    (by decide) (by decide) (by decide) (by decide) (by decide) (by decide) (by decide)
    (by decide) (Or.inl (by decide))
end EspTag
